import Mathlib

/-!
Verification development for the hybrid search-and-cache subsystem
(`src/services/cacheService.js`, `src/controllers/searchController.js`,
`src/models/User.js`, `src/config/pythonApi.js`, `src/services/pythonApiService.js`).

Shallow embedding conventions:
* JavaScript strings are Lean `String`s; `null`/`undefined` values are `Option`.
* JavaScript numbers appearing in interpolations `${n}` for page/limit are
  natural numbers rendered in decimal by `natStr` below.
* `localeCompare` on filter names is modelled by the codepoint order on
  `String` (any fixed total order yields the same canonicalization facts).
* `new RegExp(p.replace('*', '.*')).test(key)` is modelled, for the pattern
  family `"<literal>*"` whose literal part has no regex metacharacters, by
  "the literal part occurs as a contiguous segment of the key" (the regex is
  unanchored, so `test` is substring search).
* The TTL/time dimension of the node-cache store is not modelled; `entries`
  are the currently live entries.
-/

namespace BackDoUp

/-! ## Decimal rendering of numbers (JS `${n}` for a non-negative integer) -/

/-- Digit `d` (`d < 10`) as its ASCII character. -/
def digChar (d : Nat) : Char := Char.ofNat (48 + d)

/-- Little-endian decimal digits of `n`, with explicit fuel (structural). -/
def revDigs : Nat → Nat → List Nat
  | _, 0 => []
  | 0, _ + 1 => []
  | fuel + 1, n + 1 => (n + 1) % 10 :: revDigs fuel ((n + 1) / 10)

/-- Decimal rendering of a natural number, as JS `String(n)` produces. -/
def natStr (n : Nat) : String :=
  if n = 0 then "0" else String.mk (((revDigs n n).reverse).map digChar)

/-! ## CacheService (src/services/cacheService.js) -/

/-- Cache store state: live entries plus the hit/miss/set statistics kept by
`CacheService` (`this.stats`).  Keys are unique in any state reachable through
the operations below. -/
structure CacheState (α : Type) where
  entries : List (String × α)
  hits : Nat
  misses : Nat
  sets : Nat
deriving DecidableEq, Repr

/-- The empty cache with zeroed statistics. -/
def emptyCache (α : Type) : CacheState α := ⟨[], 0, 0, 0⟩

/-- Raw lookup of a key among the entries. -/
def lookupKey {α : Type} (entries : List (String × α)) (k : String) : Option α :=
  (entries.find? (fun e => e.1 == k)).map (·.2)

/-- `CacheService.get`: returns the stored value and bumps the hit or miss
counter accordingly. -/
def cacheGet {α : Type} (c : CacheState α) (k : String) : Option α × CacheState α :=
  match lookupKey c.entries k with
  | some v => (some v, { c with hits := c.hits + 1 })
  | none => (none, { c with misses := c.misses + 1 })

/-- Insert-or-overwrite of one entry, preserving entry order on overwrite. -/
def setEntry {α : Type} : List (String × α) → String → α → List (String × α)
  | [], k, v => [(k, v)]
  | (k', v') :: rest, k, v =>
      if k' = k then (k, v) :: rest else (k', v') :: setEntry rest k v

/-- `CacheService.set`: storing `null`/`undefined` is refused and returns
`false`; otherwise the value is stored and the `sets` counter bumped. -/
def cacheSet {α : Type} (c : CacheState α) (k : String) (v : Option α) :
    Bool × CacheState α :=
  match v with
  | none => (false, c)
  | some v =>
      (true, { c with entries := setEntry c.entries k v, sets := c.sets + 1 })

/-- `CacheService.delete`: removes the key, returning the removal count. -/
def cacheDel {α : Type} (c : CacheState α) (k : String) : Nat × CacheState α :=
  let n := (c.entries.filter (fun e => e.1 == k)).length
  (n, { c with entries := c.entries.filter (fun e => !(e.1 == k)) })

/-- `pat` occurs starting at the head of `l`. -/
def startsSeg : List Char → List Char → Bool
  | [], _ => true
  | _ :: _, [] => false
  | a :: as, b :: bs => a == b && startsSeg as bs

/-- `pat` occurs as a contiguous segment somewhere in `l`.  This is the truth
value of `new RegExp(pat ++ ".*").test(l)` when `pat` has no regex
metacharacters: the regex is unanchored, so it matches anywhere. -/
def hasSeg (pat : List Char) : List Char → Bool
  | [] => startsSeg pat []
  | b :: bs => startsSeg pat (b :: bs) || hasSeg pat bs

/-- `CacheService.invalidatePattern`: the pattern's first `*` and everything
after it become `.*`;  every cache key matched by the resulting unanchored
regex is deleted, and the number of matched keys is returned. -/
def invalidatePattern {α : Type} (c : CacheState α) (pattern : String) :
    Nat × CacheState α :=
  let pre := String.mk (pattern.data.takeWhile (fun ch => !(ch == '*')))
  let keys := c.entries.map (·.1)
  let matching := keys.filter (fun k => hasSeg pre.data k.data)
  let c' := matching.foldl (fun acc k => (cacheDel acc k).2) c
  (matching.length, c')

/-! ## KeyBuilder (`CacheService.getSearchKey`) -/

/-- Whitespace characters recognized by the model of JS `trim` / `\s`. -/
def isWsChar (c : Char) : Bool :=
  c == ' ' || c == '\t' || c == '\n' || c == '\r' || c == '\x0b' || c == '\x0c'

/-- Model of `String.prototype.trim`. -/
def trimWs (l : List Char) : List Char :=
  ((l.dropWhile isWsChar).reverse.dropWhile isWsChar).reverse

/-- Model of `.replace(/\s+/g, ' ')`: every maximal whitespace run becomes a
single space.  The flag records whether the previous character was part of a
whitespace run already replaced. -/
def collapseWsAux : Bool → List Char → List Char
  | _, [] => []
  | inWs, ch :: rest =>
      if isWsChar ch then
        if inWs then collapseWsAux true rest
        else ' ' :: collapseWsAux true rest
      else ch :: collapseWsAux false rest

/-- `.replace(/\s+/g, ' ')`. -/
def collapseWs (l : List Char) : List Char := collapseWsAux false l

/-- `query.toLowerCase().trim().replace(/\s+/g, ' ')` from `getSearchKey`. -/
def normalizeQuery (s : String) : String :=
  String.mk (collapseWs (trimWs (s.data.map Char.toLower)))

/-- One step of the filter-entry cleaning
`.filter(([_, value]) => value !== null && value !== undefined && value !== '')`. -/
def cleanEnt : String × Option String → Option (String × String)
  | (_, none) => none
  | (k, some v) => if v = "" then none else some (k, v)

/-- All retained filter entries, in original order. -/
def cleanFilters (l : List (String × Option String)) : List (String × String) :=
  l.filterMap cleanEnt

/-- Ordering of filter entries by name; models
`.sort(([a], [b]) => a.localeCompare(b))` (see the header note): the
lexicographic codepoint order on the names' character lists. -/
def keyLe (a b : String × String) : Prop := a.1.data ≤ b.1.data

instance : DecidableRel keyLe :=
  fun a b => inferInstanceAs (Decidable (a.1.data ≤ b.1.data))

instance : IsTotal (String × String) keyLe := ⟨fun a b => le_total a.1.data b.1.data⟩

instance : IsTrans (String × String) keyLe := ⟨fun _ _ _ h h' => le_trans h h'⟩

/-- `${key}:${value}` for one filter entry. -/
def entStr (e : String × String) : String := e.1 ++ ":" ++ e.2

/-- `.join('|')`. -/
def joinBar : List String → String
  | [] => ""
  | [x] => x
  | x :: y :: rest => x ++ "|" ++ joinBar (y :: rest)

/-- `CacheService.getSearchKey(query, filters)`. -/
def getSearchKey (query : String) (filters : List (String × Option String)) : String :=
  let normalizedQuery := normalizeQuery query
  let filtersStr := joinBar ((List.insertionSort keyLe (cleanFilters filters)).map entStr)
  "search:q:" ++ normalizedQuery ++
    (if filtersStr = "" then "" else ":filters:" ++ filtersStr)

example : natStr 20 = "20" := by decide
example : natStr 0 = "0" := by decide
example : normalizeQuery "  PluMBer   JOE " = "plumber joe" := by decide
example :
    getSearchKey "Plumber " [("location", some "Austin"), ("category", none)] =
      "search:q:plumber:filters:location:Austin" := by decide
example : hasSeg "ab".data "xxabz".data = true := by decide
example : hasSeg "ab".data "xaxbz".data = false := by decide

/-! ## Search domain model (src/controllers/searchController.js) -/

/-- The search-relevant projection of a `Service` document.  `relevance` is
optional to mirror the comparator's `!== undefined` checks. -/
structure ServiceRecord where
  id : Nat
  title : String
  rating : Int
  relevance : Option Int
  premiumOnly : Bool
  verified : Bool
  contactInfo : String
  sourceUrl : Option String
deriving DecidableEq, Repr

/-- One result object from the Python service's `custom-search` response. -/
structure RemoteRecord where
  title : String
  rating : Option Int
  relevance : Option Int
  contactInfo : Option String
  sourceUrl : Option String
deriving DecidableEq, Repr

/-- Outcome of `pythonApiService.customSearch`: the method either resolves
with `{success: true, results}` or throws (transport failure / timeout
exhaustion / non-200), which is the RemoteUnavailable condition. -/
inductive RemoteOutcome where
  | unavailable
  | ok (results : List RemoteRecord)

/-- One entry of `User.recentSearches`. -/
structure HistEntry where
  query : String
  timestamp : Nat
deriving DecidableEq, Repr

/-- The authenticated caller (`req.user`) together with the stored
`recentSearches` list of the corresponding `User` document. -/
structure UserInfo where
  id : Nat
  verified : Bool
  history : List HistEntry

/-- Environment of one `search` request: everything the controller obtains
from its collaborators (MongoDB, the Python service, the clock). -/
structure SearchEnv where
  user : Option UserInfo
  /-- The page returned by the local `$text` query (already filtered, scored,
  skipped and limited by MongoDB). -/
  localPage : List ServiceRecord
  /-- `Service.countDocuments(searchQuery)`. -/
  localTotal : Nat
  /-- The local query itself fails (authoritative-store failure). -/
  localFails : Bool
  remote : RemoteOutcome
  /-- The `Service.findOne($or ...)` dedup probe for a scraped result. -/
  dedup : RemoteRecord → Option ServiceRecord
  /-- Whether `newService.save()` succeeds for a scraped result. -/
  insertOk : RemoteRecord → Bool
  /-- The `_id` MongoDB assigns to a newly inserted scraped service. -/
  freshId : RemoteRecord → Nat
  /-- The whole history-recording block throws (user lookup or save). -/
  historySaveFails : Bool
  /-- Current time (for history timestamps). -/
  now : Nat

/-- Validated body parameters of one search request. -/
structure SearchParams where
  query : String
  category : Option String
  location : Option String
  price : Option String
  page : Nat
  limit : Nat

/-- The `{data, page, limit, total}` object the controller stores in cache. -/
structure SearchResult where
  data : List ServiceRecord
  page : Nat
  limit : Nat
  total : Nat
deriving DecidableEq, Repr

/-- What the request resolves to: a paginated success payload or the
`responseFormatter.error` 500 produced by the controller's catch-all. -/
inductive SearchResponse where
  | ok (data : List ServiceRecord) (page limit total : Nat)
  | err
deriving DecidableEq, Repr

/-- Full observable outcome of one `search` call. -/
structure SearchOutcome where
  resp : SearchResponse
  cache : CacheState SearchResult
  /-- Whether `pythonApiService.customSearch` was invoked. -/
  remoteCalled : Bool
  /-- Whether the response was served from the cache entry. -/
  fromCache : Bool
  /-- The caller's `recentSearches` after the request (`none` when
  unauthenticated). -/
  history : Option (List HistEntry)
deriving Repr

def respDataOf : SearchResponse → Option (List ServiceRecord)
  | .ok d _ _ _ => some d
  | .err => none

def respTotalOf : SearchResponse → Option Nat
  | .ok _ _ _ t => some t
  | .err => none

/-- The filter map the controller passes to `getSearchKey` (line 44), in
object-literal insertion order: category, location, price, page, limit. -/
def ctrlFilters (p : SearchParams) : List (String × Option String) :=
  [("category", p.category), ("location", p.location), ("price", p.price),
   ("page", some (natStr p.page)), ("limit", some (natStr p.limit))]

/-- The cache key the `search` controller computes. -/
def getSearchKeyCtrl (p : SearchParams) : String :=
  getSearchKey p.query (ctrlFilters p)

/-- The fixed sentinel replacing `contactInfo` on premium services. -/
def contactSentinel : String := "*** Requiere pago para acceder ***"

/-- The controller's transformation hiding sensitive information:
`if (service.premiumOnly) serviceObj.contactInfo = '*** Requiere pago para acceder ***'`. -/
def redact (s : ServiceRecord) : ServiceRecord :=
  if s.premiumOnly then { s with contactInfo := contactSentinel } else s

/-- JS `a || b` for an optional string (empty string is falsy). -/
def jsOrStr (v : Option String) (dflt : String) : String :=
  match v with
  | none => dflt
  | some s => if s = "" then dflt else s

/-- JS `a || 0` for an optional number. -/
def jsOrZero (v : Option Int) : Int := v.getD 0

/-- The `new Service({...})` built from a scraped result (premiumOnly true,
verified false, rating/relevance defaulted to 0). -/
def mkScraped (env : SearchEnv) (r : RemoteRecord) : ServiceRecord :=
  { id := env.freshId r
    title := r.title
    rating := jsOrZero r.rating
    relevance := some (jsOrZero r.relevance)
    premiumOnly := true
    verified := false
    contactInfo := jsOrStr r.contactInfo "Información no disponible"
    sourceUrl := r.sourceUrl }

/-- Processing of one scraped result: reuse the dedup match if any, otherwise
insert a new service; an insert failure is skipped (`none`). -/
def ingestOne (env : SearchEnv) (r : RemoteRecord) : Option ServiceRecord :=
  match env.dedup r with
  | some s => some s
  | none => if env.insertOk r then some (mkScraped env r) else none

/-- `Map.set` on the id-keyed `combinedServicesMap`: overwrite in place if the
id is present, else append. -/
def mapSetR (m : List ServiceRecord) (s : ServiceRecord) : List ServiceRecord :=
  if m.any (fun t => t.id == s.id) then
    m.map (fun t => if t.id == s.id then s else t)
  else m ++ [s]

/-- The controller's merge: local services are `Map.set` first; a new service
is added only `if (!combinedServicesMap.has(...))`. -/
def mergeById (locals news : List ServiceRecord) : List ServiceRecord :=
  let m1 := locals.foldl mapSetR []
  news.foldl (fun m s => if m.any (fun t => t.id == s.id) then m else mapSetR m s) m1

/-- The sort comparator on combined services: by relevance descending when
both sides have a relevance, otherwise by rating descending. -/
def svcCompare (a b : ServiceRecord) : Int :=
  match a.relevance, b.relevance with
  | some ra, some rb => rb - ra
  | _, _ => b.rating - a.rating

/-- Stable insertion w.r.t. the comparator: `x` goes before the first element
it need not follow.  On consistent comparators this coincides with the
ES2019-stable `Array.prototype.sort`. -/
def insOrd (x : ServiceRecord) : List ServiceRecord → List ServiceRecord
  | [] => [x]
  | y :: ys => if svcCompare x y ≤ 0 then x :: y :: ys else y :: insOrd x ys

/-- Stable sort by `svcCompare` (model of `.sort((a, b) => ...)`). -/
def sortCmp (l : List ServiceRecord) : List ServiceRecord := l.foldr insOrd []

/-- `UserSchema.methods.addRecentSearch`: unshift the new entry, then slice to
the 10 most recent when the list exceeds 10. -/
def addRecentSearch (q : String) (ts : Nat) (l : List HistEntry) : List HistEntry :=
  let l' := { query := q, timestamp := ts } :: l
  if l'.length > 10 then l'.take 10 else l'

/-- The history side effect guarded by `try/catch` in the controller: a
failure leaves the stored history unchanged and is otherwise ignored. -/
def recordHistory (env : SearchEnv) (q : String) : Option (List HistEntry) :=
  match env.user with
  | none => none
  | some u =>
      some (if env.historySaveFails then u.history else addRecentSearch q env.now u.history)

/-- Shared tail of the two return-local-results paths (sufficient local
results, or no additional scraped results): redact, cache, record history. -/
def finishLocal (env : SearchEnv) (p : SearchParams) (c : CacheState SearchResult)
    (key : String) (services : List ServiceRecord) (total : Nat) (rc : Bool) :
    SearchOutcome :=
  let transformed := services.map redact
  let result : SearchResult := ⟨transformed, p.page, p.limit, total⟩
  let c2 := (cacheSet c key (some result)).2
  { resp := .ok transformed p.page p.limit total
    cache := c2
    remoteCalled := rc
    fromCache := false
    history := recordHistory env p.query }

/-- The `search` controller (`src/controllers/searchController.js`, `search`):
cache probe, local query, sufficiency gate, Python fallback, ingestion, merge,
sort, pagination, redaction, cache write, history side effect.  A thrown
error anywhere inside the big `try` (store failure, or `customSearch`
rethrowing on RemoteUnavailable) reaches the catch-all and produces the 500
error response. -/
def runSearch (env : SearchEnv) (p : SearchParams) (c : CacheState SearchResult) :
    SearchOutcome :=
  let key := getSearchKeyCtrl p
  let looked := cacheGet c key
  match looked.1 with
  | some r =>
      { resp := .ok r.data r.page r.limit r.total
        cache := looked.2
        remoteCalled := false
        fromCache := true
        history := env.user.map (·.history) }
  | none =>
    let c1 := looked.2
    if env.localFails then
      { resp := .err, cache := c1, remoteCalled := false, fromCache := false
        history := env.user.map (·.history) }
    else
      let services := env.localPage
      let total := env.localTotal
      if 5 ≤ services.length ∨ 10 ≤ total then
        finishLocal env p c1 key services total false
      else
        match env.remote with
        | .unavailable =>
            { resp := .err, cache := c1, remoteCalled := true, fromCache := false
              history := env.user.map (·.history) }
        | .ok rs =>
            if 0 < rs.length then
              let newServices := rs.filterMap (ingestOne env)
              let combinedServices := sortCmp (mergeById services newServices)
              let startIndex := (p.page - 1) * p.limit
              let paginated := (combinedServices.drop startIndex).take p.limit
              let transformed := paginated.map redact
              let result : SearchResult :=
                ⟨transformed, p.page, p.limit, combinedServices.length⟩
              let c2 := (cacheSet c1 key (some result)).2
              { resp := .ok transformed p.page p.limit combinedServices.length
                cache := c2
                remoteCalled := true
                fromCache := false
                history := recordHistory env p.query }
            else
              finishLocal env p c1 key services total true

/-! ## Python API client retry interceptor (src/config/pythonApi.js) -/

/-- The mutable flags axios carries on a request config object:
`_retry` (absent modelled as `false`) and `_retryCount` (absent modelled as
`none`, mirroring JS `undefined`). -/
structure ReqCfg where
  retryFlag : Bool
  retryCount : Option Nat
deriving DecidableEq, Repr

/-- A fresh request config: neither `_retry` nor `_retryCount` is set. -/
def initCfg : ReqCfg := ⟨false, none⟩

/-- Failure shapes distinguished by the response interceptor. -/
inductive ApiErr where
  | appError (status : Nat)
  | connAborted
  | noResponse
deriving DecidableEq, Repr

/-- `error.code === 'ECONNABORTED' || !error.response`. -/
def isTransport : ApiErr → Bool
  | .appError _ => false
  | .connAborted => true
  | .noResponse => true

/-- JS `o < m` when `o` may be `undefined`: `undefined < m` is `NaN < m`,
which is `false`. -/
def jsUndefLt (o : Option Nat) (m : Nat) : Bool :=
  match o with
  | none => false
  | some k => decide (k < m)

/-- `PYTHON_API_MAX_RETRIES` default. -/
def maxRetries : Nat := 3

/-- The retry decision of the response interceptor: on which failures the
request is re-issued, with the updated config and the backoff delay in
milliseconds (`Math.pow(2, _retryCount) * 1000`). -/
def retryStep (cfg : ReqCfg) (e : ApiErr) : Option (ReqCfg × Nat) :=
  if isTransport e && !cfg.retryFlag && jsUndefLt cfg.retryCount maxRetries then
    let newCount := cfg.retryCount.getD 0 + 1
    some (⟨true, some newCount⟩, 2 ^ newCount * 1000)
  else none

/-- Outcome of one attempt of the underlying HTTP request. -/
inductive AttemptRes where
  | ok
  | fail (e : ApiErr)

/-- Number of attempts one logical call performs, given the sequence of
outcomes the network would produce for successive attempts. -/
def runCall (cfg : ReqCfg) : List AttemptRes → Nat
  | [] => 0
  | .ok :: _ => 1
  | .fail e :: rest =>
      match retryStep cfg e with
      | none => 1
      | some (cfg', _) => 1 + runCall cfg' rest

/-- Number of retries (re-issued requests) one logical call performs. -/
def retriesUsed (cfg : ReqCfg) : List AttemptRes → Nat
  | [] => 0
  | .ok :: _ => 0
  | .fail e :: rest =>
      match retryStep cfg e with
      | none => 0
      | some (cfg', _) => 1 + retriesUsed cfg' rest

/-! ## Lemmas about the retry interceptor -/

theorem retryStep_eq_some {cfg : ReqCfg} {e : ApiErr} {c : ReqCfg} {d : Nat}
    (h : retryStep cfg e = some (c, d)) :
    isTransport e = true ∧ c.retryFlag = true ∧
      d = 2 ^ (c.retryCount.getD 0) * 1000 := by
  unfold retryStep at h
  split at h
  · rename_i hcond
    simp only [Option.some.injEq, Prod.mk.injEq] at h
    obtain ⟨hc, hd⟩ := h
    simp only [Bool.and_eq_true] at hcond
    subst hc
    exact ⟨hcond.1.1, rfl, by simpa using hd.symm⟩
  · exact absurd h (by simp)

theorem retryStep_flagTrue_none {cfg : ReqCfg} (hf : cfg.retryFlag = true)
    (e : ApiErr) : retryStep cfg e = none := by
  unfold retryStep
  rw [if_neg]
  simp [hf]

theorem runCall_flagTrue_le_one {cfg : ReqCfg} (hf : cfg.retryFlag = true)
    (os : List AttemptRes) : runCall cfg os ≤ 1 := by
  cases os with
  | nil => simp [runCall]
  | cons o rest =>
      cases o with
      | ok => simp [runCall]
      | fail e => simp [runCall, retryStep_flagTrue_none hf]

theorem runCall_le_two (cfg : ReqCfg) (os : List AttemptRes) :
    runCall cfg os ≤ 2 := by
  cases os with
  | nil => simp [runCall]
  | cons o rest =>
      cases o with
      | ok => simp [runCall]
      | fail e =>
          unfold runCall
          cases hstep : retryStep cfg e with
          | none => simp
          | some p =>
              obtain ⟨c', d⟩ := p
              have hflag := (retryStep_eq_some hstep).2.1
              have h1 := runCall_flagTrue_le_one hflag rest
              simp only []
              omega

theorem retriesUsed_flagTrue {cfg : ReqCfg} (hf : cfg.retryFlag = true)
    (os : List AttemptRes) : retriesUsed cfg os = 0 := by
  cases os with
  | nil => simp [retriesUsed]
  | cons o rest =>
      cases o with
      | ok => simp [retriesUsed]
      | fail e => simp [retriesUsed, retryStep_flagTrue_none hf]

theorem retriesUsed_le_one (cfg : ReqCfg) (os : List AttemptRes) :
    retriesUsed cfg os ≤ 1 := by
  cases os with
  | nil => simp [retriesUsed]
  | cons o rest =>
      cases o with
      | ok => simp [retriesUsed]
      | fail e =>
          unfold retriesUsed
          cases hstep : retryStep cfg e with
          | none => simp
          | some p =>
              obtain ⟨c', d⟩ := p
              have hflag := (retryStep_eq_some hstep).2.1
              simp [retriesUsed_flagTrue hflag rest]

/-- C2.  For every logical call to the Python API client, the response
interceptor retries only on a transport failure or timeout (never on an
application-level error response), the total number of attempts is at most
3, the delay before the retry that becomes attempt number `n` is
`2 ^ n * 1000` milliseconds, i.e. `2 ^ n` seconds, and at most one retry
flag is set per logical call, so there is no nested retry loop. -/
theorem pythonRetry_bounds (os : List AttemptRes) :
    runCall initCfg os ≤ 3 ∧
    (∀ cfg : ReqCfg, retriesUsed cfg os ≤ 1) ∧
    (∀ (cfg : ReqCfg) (e : ApiErr) (c : ReqCfg) (d : Nat),
      retryStep cfg e = some (c, d) →
        isTransport e = true ∧ c.retryFlag = true ∧
          d = 2 ^ (c.retryCount.getD 0) * 1000) := by
  refine ⟨le_trans (runCall_le_two _ os) (by norm_num),
    fun cfg => retriesUsed_le_one cfg os,
    fun cfg e c d h => retryStep_eq_some h⟩

/-- Witness for C2: concrete instantiation; a transport failure on a config
whose count is initialized retries with a 2-second delay. -/
theorem pythonRetry_bounds_witness :
    runCall initCfg [AttemptRes.fail ApiErr.connAborted] ≤ 3 ∧
    (isTransport ApiErr.connAborted = true ∧
      (⟨true, some 1⟩ : ReqCfg).retryFlag = true ∧
      2000 = 2 ^ ((some 1 : Option Nat).getD 0) * 1000) := by
  refine ⟨(pythonRetry_bounds [AttemptRes.fail ApiErr.connAborted]).1, ?_⟩
  exact (pythonRetry_bounds [AttemptRes.fail ApiErr.connAborted]).2.2
    ⟨false, some 0⟩ ApiErr.connAborted ⟨true, some 1⟩ 2000 (by decide)

/-! ## Lemmas about pattern invalidation -/

theorem foldl_cacheDel_entries {α : Type} (ks : List String) (c : CacheState α) :
    (ks.foldl (fun acc k => (cacheDel acc k).2) c).entries
      = c.entries.filter (fun e => !ks.contains e.1) := by
  induction ks generalizing c with
  | nil => simp
  | cons k ks ih =>
      rw [List.foldl_cons, ih]
      have h2 : (cacheDel c k).2.entries = c.entries.filter (fun e => !(e.1 == k)) := rfl
      rw [h2, List.filter_filter]
      apply List.filter_congr
      intro e _
      simp only [List.contains_cons, Bool.not_or]
      exact Bool.and_comm _ _

theorem takeWhile_append_stop {p : Char → Bool} :
    ∀ (l : List Char) (x : Char), (∀ c ∈ l, p c = true) → p x = false →
      (l ++ [x]).takeWhile p = l := by
  intro l x hl hx
  induction l with
  | nil => simp [List.takeWhile, hx]
  | cons a as ih =>
      have ha : p a = true := hl a (by simp)
      simp only [List.cons_append, List.takeWhile_cons, ha, if_true]
      rw [ih (fun c hc => hl c (by simp [hc]))]

/-- C3 (amended).  For every cache state and every pattern of the form
`<literal>*` whose literal part contains no `*` (and, per the model, no other
regex metacharacter), `invalidatePattern` removes exactly the keys that
contain the literal part as a contiguous substring — a superset of the keys
that start with it, because the compiled regex is unanchored — and returns
the number of keys removed. -/
theorem invalidatePattern_amended {α : Type} (c : CacheState α)
    (pre pattern : String)
    (hpat : pattern.data = pre.data ++ ['*'])
    (hstar : '*' ∉ pre.data) :
    (invalidatePattern c pattern).2.entries
        = c.entries.filter (fun e => !(hasSeg pre.data e.1.data)) ∧
    (invalidatePattern c pattern).1
        = (c.entries.filter (fun e => hasSeg pre.data e.1.data)).length := by
  have hpre : pattern.data.takeWhile (fun ch => !(ch == '*')) = pre.data := by
    rw [hpat]
    exact takeWhile_append_stop pre.data '*'
      (fun ch hch => by
        cases hb : ch == '*'
        · simp
        · exact absurd (by simpa using (beq_iff_eq.mp hb) ▸ hch) hstar)
      (by simp)
  have hmk : String.mk pre.data = pre := by cases pre; rfl
  constructor
  · show (List.foldl _ c _).entries = _
    rw [hpre, hmk, foldl_cacheDel_entries]
    apply List.filter_congr
    intro e he
    have hc : ((c.entries.map (·.1)).filter fun k => hasSeg pre.data k.data).contains e.1
        = hasSeg pre.data e.1.data := by
      cases h : hasSeg pre.data e.1.data with
      | true =>
          have hm : e.1 ∈ (c.entries.map (·.1)).filter (fun k => hasSeg pre.data k.data) :=
            List.mem_filter.mpr ⟨List.mem_map_of_mem _ he, h⟩
          simp [List.contains, hm]
      | false =>
          have hm : e.1 ∉ (c.entries.map (·.1)).filter (fun k => hasSeg pre.data k.data) := by
            intro hmem
            have := (List.mem_filter.mp hmem).2
            simp [h] at this
          simp [List.contains, hm]
    rw [hc]
  · show (List.filter _ (c.entries.map (·.1))).length = _
    rw [hpre, hmk, List.filter_map, List.length_map]
    rfl

/-- Counterexample for C3 as stated: with the pattern
`"services:category:5:*"`, a key that merely contains (but does not start
with) the literal part is removed as well, so the removed set is not
"exactly the keys whose string starts with that literal prefix". -/
theorem invalidatePattern_counterexample :
    (invalidatePattern (⟨[("xservices:category:5:a", (1 : Nat)),
        ("services:category:5:b", 2), ("other", 3)], 0, 0, 0⟩ : CacheState Nat)
        "services:category:5:*").1 = 2 ∧
    (invalidatePattern (⟨[("xservices:category:5:a", (1 : Nat)),
        ("services:category:5:b", 2), ("other", 3)], 0, 0, 0⟩ : CacheState Nat)
        "services:category:5:*").2.entries = [("other", 3)] ∧
    startsSeg "services:category:5:".data "xservices:category:5:a".data = false := by
  decide

/-- Witness for C3 (amended), at a concrete state and pattern. -/
theorem invalidatePattern_amended_witness :
    ("services:category:5:*" : String).data
        = ("services:category:5:" : String).data ++ ['*'] ∧
    '*' ∉ ("services:category:5:" : String).data ∧
    (invalidatePattern (⟨[("xservices:category:5:a", (1 : Nat)),
        ("services:category:5:b", 2), ("other", 3)], 0, 0, 0⟩ : CacheState Nat)
        "services:category:5:*").2.entries
      = ([("xservices:category:5:a", (1 : Nat)), ("services:category:5:b", 2),
          ("other", 3)].filter
            (fun e => !(hasSeg ("services:category:5:" : String).data e.1.data))) := by
  refine ⟨by decide, by decide, ?_⟩
  exact (invalidatePattern_amended _ "services:category:5:"
    "services:category:5:*" (by decide) (by decide)).1

/-! ## Basic cache-entry lemmas -/

theorem lookupKey_mem {α : Type} {l : List (String × α)} {k : String} {v : α}
    (h : lookupKey l k = some v) : (k, v) ∈ l := by
  unfold lookupKey at h
  cases hf : l.find? (fun e => e.1 == k) with
  | none => rw [hf] at h; simp at h
  | some e =>
      rw [hf] at h
      simp only [Option.map_some'] at h
      have hm := List.mem_of_find?_eq_some hf
      have hp := List.find?_some hf
      obtain ⟨a, b⟩ := e
      simp only [Option.some.injEq] at h
      have ha : a = k := by simpa using hp
      subst ha
      subst h
      exact hm

theorem setEntry_mem {α : Type} {l : List (String × α)} {k : String} {v : α}
    {kv : String × α} (h : kv ∈ setEntry l k v) : kv = (k, v) ∨ kv ∈ l := by
  induction l with
  | nil =>
      simp only [setEntry, List.mem_singleton] at h
      exact Or.inl h
  | cons e rest ih =>
      obtain ⟨k', v'⟩ := e
      simp only [setEntry] at h
      by_cases hk : k' = k
      · rw [if_pos hk] at h
        rcases List.mem_cons.mp h with h | h
        · exact Or.inl h
        · exact Or.inr (List.mem_cons_of_mem _ h)
      · rw [if_neg hk] at h
        rcases List.mem_cons.mp h with h | h
        · exact Or.inr (h ▸ List.mem_cons_self _ _)
        · rcases ih h with h' | h'
          · exact Or.inl h'
          · exact Or.inr (List.mem_cons_of_mem _ h')

theorem lookupKey_setEntry_self {α : Type} (l : List (String × α)) (k : String)
    (v : α) : lookupKey (setEntry l k v) k = some v := by
  induction l with
  | nil => simp [setEntry, lookupKey, List.find?]
  | cons e rest ih =>
      obtain ⟨k', v'⟩ := e
      by_cases hk : k' = k
      · simp [setEntry, hk, lookupKey, List.find?]
      · have hb : (k' == k) = false := by simpa using hk
        simp only [setEntry, if_neg hk]
        simp only [lookupKey, List.find?, hb]
        exact ih

/-! ## Redaction and history lemmas -/

/-- Every premium record in the list carries the sentinel contact value. -/
def redactedList (l : List ServiceRecord) : Prop :=
  ∀ s ∈ l, s.premiumOnly = true → s.contactInfo = contactSentinel

instance (l : List ServiceRecord) : Decidable (redactedList l) :=
  inferInstanceAs (Decidable (∀ s ∈ l, _ → _))

theorem redactedList_map_redact (l : List ServiceRecord) :
    redactedList (l.map redact) := by
  intro s hs hp
  obtain ⟨t, _, rfl⟩ := List.mem_map.mp hs
  by_cases h : t.premiumOnly
  · simp [redact, h]
  · simp [redact, h] at hp

theorem addRecentSearch_eq (q : String) (ts : Nat) (l : List HistEntry) :
    addRecentSearch q ts l = ⟨q, ts⟩ :: l.take 9 := by
  unfold addRecentSearch
  by_cases h : l.length + 1 > 10
  · rw [if_pos (by simpa using h)]
    have h9 : (10 : Nat) = 9 + 1 := rfl
    simp [List.take_succ_cons]
  · rw [if_neg (by simpa using h)]
    rw [List.take_of_length_le (by omega)]

theorem addRecentSearch_len (q : String) (ts : Nat) (l : List HistEntry) :
    (addRecentSearch q ts l).length ≤ 10 := by
  rw [addRecentSearch_eq]
  simp only [List.length_cons, List.length_take]
  omega

/-! ## Path-unfolding lemmas for the search controller -/

theorem runSearch_hit (env : SearchEnv) (p : SearchParams)
    (c : CacheState SearchResult) (r : SearchResult)
    (h : lookupKey c.entries (getSearchKeyCtrl p) = some r) :
    runSearch env p c =
      { resp := .ok r.data r.page r.limit r.total
        cache := { c with hits := c.hits + 1 }
        remoteCalled := false, fromCache := true
        history := env.user.map (·.history) } := by
  simp only [runSearch, cacheGet, h]

theorem runSearch_miss_store (env : SearchEnv) (p : SearchParams)
    (c : CacheState SearchResult)
    (hmiss : lookupKey c.entries (getSearchKeyCtrl p) = none)
    (hstore : env.localFails = true) :
    runSearch env p c =
      { resp := .err, cache := { c with misses := c.misses + 1 }
        remoteCalled := false, fromCache := false
        history := env.user.map (·.history) } := by
  simp only [runSearch, cacheGet, hmiss, hstore, if_true]

theorem runSearch_miss_gate (env : SearchEnv) (p : SearchParams)
    (c : CacheState SearchResult)
    (hmiss : lookupKey c.entries (getSearchKeyCtrl p) = none)
    (hstore : env.localFails = false)
    (hgate : 5 ≤ env.localPage.length ∨ 10 ≤ env.localTotal) :
    runSearch env p c =
      finishLocal env p { c with misses := c.misses + 1 } (getSearchKeyCtrl p)
        env.localPage env.localTotal false := by
  simp only [runSearch, cacheGet, hmiss, hstore, hgate, Bool.false_eq_true,
    if_false, if_true]

theorem runSearch_miss_unavail (env : SearchEnv) (p : SearchParams)
    (c : CacheState SearchResult)
    (hmiss : lookupKey c.entries (getSearchKeyCtrl p) = none)
    (hstore : env.localFails = false)
    (hgate : ¬(5 ≤ env.localPage.length ∨ 10 ≤ env.localTotal))
    (hrem : env.remote = .unavailable) :
    runSearch env p c =
      { resp := .err, cache := { c with misses := c.misses + 1 }
        remoteCalled := true, fromCache := false
        history := env.user.map (·.history) } := by
  simp only [runSearch, cacheGet, hmiss, hstore, hgate, hrem,
    Bool.false_eq_true, if_false]

theorem runSearch_miss_zero (env : SearchEnv) (p : SearchParams)
    (c : CacheState SearchResult)
    (hmiss : lookupKey c.entries (getSearchKeyCtrl p) = none)
    (hstore : env.localFails = false)
    (hgate : ¬(5 ≤ env.localPage.length ∨ 10 ≤ env.localTotal))
    (hrem : env.remote = .ok []) :
    runSearch env p c =
      finishLocal env p { c with misses := c.misses + 1 } (getSearchKeyCtrl p)
        env.localPage env.localTotal true := by
  simp only [runSearch, cacheGet, hmiss, hstore, hgate, hrem,
    Bool.false_eq_true, if_false, List.length_nil, Nat.lt_irrefl]

theorem runSearch_miss_merge (env : SearchEnv) (p : SearchParams)
    (c : CacheState SearchResult) (rs : List RemoteRecord)
    (hmiss : lookupKey c.entries (getSearchKeyCtrl p) = none)
    (hstore : env.localFails = false)
    (hgate : ¬(5 ≤ env.localPage.length ∨ 10 ≤ env.localTotal))
    (hrem : env.remote = .ok rs) (hne : 0 < rs.length) :
    runSearch env p c =
      { resp := .ok
          ((((sortCmp (mergeById env.localPage (rs.filterMap (ingestOne env)))).drop
                ((p.page - 1) * p.limit)).take p.limit).map redact)
          p.page p.limit
          (sortCmp (mergeById env.localPage (rs.filterMap (ingestOne env)))).length
        cache :=
          (cacheSet { c with misses := c.misses + 1 } (getSearchKeyCtrl p)
            (some ⟨(((sortCmp (mergeById env.localPage
                  (rs.filterMap (ingestOne env)))).drop
                    ((p.page - 1) * p.limit)).take p.limit).map redact,
                p.page, p.limit,
                (sortCmp (mergeById env.localPage
                  (rs.filterMap (ingestOne env)))).length⟩)).2
        remoteCalled := true, fromCache := false
        history := recordHistory env p.query } := by
  simp only [runSearch, cacheGet, hmiss, hstore, hgate, hrem,
    Bool.false_eq_true, if_false, hne, if_true]

/-! ## C6: the sufficiency gate skips the remote fallback -/

/-- C6.  For every search that misses the cache, if the local query returns a
page with at least 5 records or a total match count of at least 10, the
remote enrichment search is never invoked (`remoteCalled = false`) and the
(redacted) local results are returned as authoritative with the local total. -/
theorem gate_skips_remote (env : SearchEnv) (p : SearchParams)
    (c : CacheState SearchResult)
    (hmiss : lookupKey c.entries (getSearchKeyCtrl p) = none)
    (hstore : env.localFails = false)
    (hgate : 5 ≤ env.localPage.length ∨ 10 ≤ env.localTotal) :
    (runSearch env p c).remoteCalled = false ∧
    (runSearch env p c).resp
      = .ok (env.localPage.map redact) p.page p.limit env.localTotal := by
  rw [runSearch_miss_gate env p c hmiss hstore hgate]
  exact ⟨rfl, rfl⟩

/-- Concrete search environment for the C6 witness: ten total local matches. -/
def c6env : SearchEnv :=
  { user := none
    localPage := [⟨1, "a", 3, some 50, false, true, "555", none⟩]
    localTotal := 10
    localFails := false
    remote := .ok []
    dedup := fun _ => none
    insertOk := fun _ => true
    freshId := fun _ => 0
    historySaveFails := false
    now := 0 }

def c6p : SearchParams := ⟨"wedding photographer", none, none, none, 1, 20⟩

/-- Witness for C6 at a concrete environment with `localTotal = 10`. -/
theorem gate_skips_remote_witness :
    (lookupKey (emptyCache SearchResult).entries (getSearchKeyCtrl c6p) = none ∧
      c6env.localFails = false ∧ 10 ≤ c6env.localTotal) ∧
    (runSearch c6env c6p (emptyCache SearchResult)).remoteCalled = false ∧
    (runSearch c6env c6p (emptyCache SearchResult)).resp
      = .ok (c6env.localPage.map redact) c6p.page c6p.limit c6env.localTotal := by
  refine ⟨⟨rfl, rfl, by norm_num [c6env]⟩, ?_⟩
  exact gate_skips_remote c6env c6p (emptyCache SearchResult) rfl rfl
    (Or.inr (by norm_num [c6env]))

/-! ## C1: behaviour of the remote-fallback step -/

/-- C1 (amended).  For every search that reaches the remote-fallback step
(local page < 5 records and total < 10), a remote response with zero records
causes silent continuation: the request succeeds with the (possibly sparse)
redacted local results.  A RemoteUnavailable condition, however, propagates
out of `customSearch` into the controller's catch-all, so the request fails
with the 500 error response instead of returning the local results. -/
theorem remoteFallback_amended (env : SearchEnv) (p : SearchParams)
    (c : CacheState SearchResult)
    (hmiss : lookupKey c.entries (getSearchKeyCtrl p) = none)
    (hstore : env.localFails = false)
    (hgate : ¬(5 ≤ env.localPage.length ∨ 10 ≤ env.localTotal)) :
    (env.remote = .ok [] →
      (runSearch env p c).resp
        = .ok (env.localPage.map redact) p.page p.limit env.localTotal) ∧
    (env.remote = .unavailable → (runSearch env p c).resp = .err) := by
  constructor
  · intro hz
    rw [runSearch_miss_zero env p c hmiss hstore hgate hz]
    rfl
  · intro hung
    rw [runSearch_miss_unavail env p c hmiss hstore hgate hung]

/-- Concrete sparse environment whose remote call is RemoteUnavailable. -/
def c1env : SearchEnv :=
  { user := none
    localPage := [⟨1, "loc", 3, some 50, false, true, "555", none⟩]
    localTotal := 1
    localFails := false
    remote := .unavailable
    dedup := fun _ => none
    insertOk := fun _ => true
    freshId := fun _ => 99
    historySaveFails := false
    now := 0 }

def c1p : SearchParams := ⟨"emergency plumber", none, none, none, 1, 20⟩

/-- Counterexample for C1 as stated: a sparse-result query (1 local record,
total 1) that reaches the remote-fallback step and hits a RemoteUnavailable
condition produces the 500 error response — the remote failure does surface
to the caller as a request failure instead of the sparse local results. -/
theorem remoteUnavailable_counterexample :
    c1env.localPage.length < 5 ∧ c1env.localTotal < 10 ∧
    lookupKey (emptyCache SearchResult).entries (getSearchKeyCtrl c1p) = none ∧
    (runSearch c1env c1p (emptyCache SearchResult)).remoteCalled = true ∧
    (runSearch c1env c1p (emptyCache SearchResult)).resp = .err := by
  refine ⟨by norm_num [c1env], by norm_num [c1env], rfl, ?_, ?_⟩
  · rw [runSearch_miss_unavail c1env c1p (emptyCache SearchResult) rfl rfl
      (by norm_num [c1env]) rfl]
  · rw [runSearch_miss_unavail c1env c1p (emptyCache SearchResult) rfl rfl
      (by norm_num [c1env]) rfl]

/-- Witness for C1 (amended): the zero-records half at a concrete sparse
environment, and the unavailable half at `c1env`-like data. -/
theorem remoteFallback_amended_witness :
    (lookupKey (emptyCache SearchResult).entries (getSearchKeyCtrl c1p) = none ∧
      ¬(5 ≤ c1env.localPage.length ∨ 10 ≤ c1env.localTotal)) ∧
    ({ c1env with remote := .ok [] }.remote = RemoteOutcome.ok [] →
      (runSearch { c1env with remote := .ok [] } c1p (emptyCache SearchResult)).resp
        = .ok (c1env.localPage.map redact) c1p.page c1p.limit c1env.localTotal) := by
  refine ⟨⟨rfl, by norm_num [c1env]⟩, ?_⟩
  exact (remoteFallback_amended { c1env with remote := .ok [] } c1p
    (emptyCache SearchResult) rfl rfl (by norm_num [c1env])).1

/-! ## C8: premium contact info is redacted before caching and on every path -/

/-- The two properties C8 asserts of a response payload and the cache. -/
theorem finishLocal_resp (env : SearchEnv) (p : SearchParams)
    (c : CacheState SearchResult) (key : String) (svcs : List ServiceRecord)
    (total : Nat) (rc : Bool) :
    (finishLocal env p c key svcs total rc).resp
      = .ok (svcs.map redact) p.page p.limit total ∧
    (finishLocal env p c key svcs total rc).cache.entries
      = setEntry c.entries key ⟨svcs.map redact, p.page, p.limit, total⟩ :=
  ⟨rfl, rfl⟩

/-- C8.  If every cached search entry holds only redacted data, then for any
request: (a) a successful response never exposes a premium record's real
contact field (it is the fixed sentinel), (b) the successful payload is
exactly what sits in the cache under the request's key — redaction happened
before the cache write, so cache-miss and cache-hit paths serve identically
redacted records — and (c) the cache-entry invariant is preserved. -/
theorem premium_redaction (env : SearchEnv) (p : SearchParams)
    (c : CacheState SearchResult)
    (hc : ∀ kv ∈ c.entries, redactedList kv.2.data) :
    (∀ d pg lm tt, (runSearch env p c).resp = .ok d pg lm tt →
      redactedList d ∧
      ∃ r, lookupKey (runSearch env p c).cache.entries (getSearchKeyCtrl p)
            = some r ∧ r.data = d) ∧
    (∀ kv ∈ (runSearch env p c).cache.entries, redactedList kv.2.data) := by
  rcases hl : lookupKey c.entries (getSearchKeyCtrl p) with _ | r
  · -- cache miss
    by_cases hst : env.localFails = true
    · rw [runSearch_miss_store env p c hl hst]
      exact ⟨fun d pg lm tt hresp => by simp at hresp, fun kv hkv => hc kv hkv⟩
    · have hst' : env.localFails = false := by simpa using hst
      by_cases hg : 5 ≤ env.localPage.length ∨ 10 ≤ env.localTotal
      · rw [runSearch_miss_gate env p c hl hst' hg]
        refine ⟨fun d pg lm tt hresp => ?_, fun kv hkv => ?_⟩
        · rw [(finishLocal_resp env p _ _ _ _ _).1] at hresp
          obtain ⟨hd, -, -, -⟩ := SearchResponse.ok.inj hresp
          subst hd
          refine ⟨redactedList_map_redact _,
            ⟨⟨env.localPage.map redact, p.page, p.limit, env.localTotal⟩, ?_, rfl⟩⟩
          rw [(by rfl :
            (finishLocal env p { c with misses := c.misses + 1 }
              (getSearchKeyCtrl p) env.localPage env.localTotal false).cache.entries
            = setEntry c.entries (getSearchKeyCtrl p)
                ⟨env.localPage.map redact, p.page, p.limit, env.localTotal⟩)]
          exact lookupKey_setEntry_self _ _ _
        · rcases setEntry_mem hkv with h | h
          · subst h; exact redactedList_map_redact _
          · exact hc kv h
      · rcases hr : env.remote with _ | rs
        · rw [runSearch_miss_unavail env p c hl hst' hg hr]
          exact ⟨fun d pg lm tt hresp => by simp at hresp, fun kv hkv => hc kv hkv⟩
        · by_cases hn : 0 < rs.length
          · rw [runSearch_miss_merge env p c rs hl hst' hg hr hn]
            refine ⟨fun d pg lm tt hresp => ?_, fun kv hkv => ?_⟩
            · obtain ⟨hd, -, -, -⟩ := SearchResponse.ok.inj hresp
              subst hd
              refine ⟨redactedList_map_redact _,
                ⟨⟨(((sortCmp (mergeById env.localPage
                      (rs.filterMap (ingestOne env)))).drop
                        ((p.page - 1) * p.limit)).take p.limit).map redact,
                  p.page, p.limit,
                  (sortCmp (mergeById env.localPage
                    (rs.filterMap (ingestOne env)))).length⟩, ?_, rfl⟩⟩
              exact lookupKey_setEntry_self _ _ _
            · rcases setEntry_mem hkv with h | h
              · subst h; exact redactedList_map_redact _
              · exact hc kv h
          · have hz : rs = [] := by
              cases rs with
              | nil => rfl
              | cons a as => simp at hn
            subst hz
            rw [runSearch_miss_zero env p c hl hst' hg hr]
            refine ⟨fun d pg lm tt hresp => ?_, fun kv hkv => ?_⟩
            · rw [(finishLocal_resp env p _ _ _ _ _).1] at hresp
              obtain ⟨hd, -, -, -⟩ := SearchResponse.ok.inj hresp
              subst hd
              refine ⟨redactedList_map_redact _,
                ⟨⟨env.localPage.map redact, p.page, p.limit, env.localTotal⟩, ?_, rfl⟩⟩
              rw [(by rfl :
                (finishLocal env p { c with misses := c.misses + 1 }
                  (getSearchKeyCtrl p) env.localPage env.localTotal true).cache.entries
                = setEntry c.entries (getSearchKeyCtrl p)
                    ⟨env.localPage.map redact, p.page, p.limit, env.localTotal⟩)]
              exact lookupKey_setEntry_self _ _ _
            · rcases setEntry_mem hkv with h | h
              · subst h; exact redactedList_map_redact _
              · exact hc kv h
  · -- cache hit: the cached entry is served unchanged
    rw [runSearch_hit env p c r hl]
    refine ⟨fun d pg lm tt hresp => ?_, fun kv hkv => hc kv hkv⟩
    obtain ⟨hd, -, -, -⟩ := SearchResponse.ok.inj hresp
    subst hd
    exact ⟨hc _ (lookupKey_mem hl), ⟨r, hl, rfl⟩⟩

/-- Concrete data for the C8 witness: one premium and one free local record,
an unauthenticated caller, sufficient local results. -/
def c8env : SearchEnv :=
  { user := none
    localPage :=
      [⟨1, "premium cleaner", 5, some 90, true, true, "secret-phone", none⟩,
       ⟨2, "free cleaner", 4, some 80, false, true, "public-phone", none⟩,
       ⟨3, "c", 1, some 10, true, false, "secret2", none⟩,
       ⟨4, "d", 2, some 20, false, false, "pub2", none⟩,
       ⟨5, "e", 3, some 30, true, false, "secret3", none⟩]
    localTotal := 5
    localFails := false
    remote := .ok []
    dedup := fun _ => none
    insertOk := fun _ => true
    freshId := fun _ => 0
    historySaveFails := false
    now := 0 }

def c8p : SearchParams := ⟨"cleaner", none, none, none, 1, 20⟩

/-- Witness for C8 at a concrete environment: the empty cache satisfies the
invariant, and the premium records in the response carry the sentinel. -/
theorem premium_redaction_witness :
    (∀ kv ∈ (emptyCache SearchResult).entries, redactedList kv.2.data) ∧
    (∀ kv ∈ (runSearch c8env c8p (emptyCache SearchResult)).cache.entries,
      redactedList kv.2.data) := by
  have h0 : ∀ kv ∈ (emptyCache SearchResult).entries, redactedList kv.2.data := by
    intro kv hkv
    simp [emptyCache] at hkv
  exact ⟨h0, (premium_redaction c8env c8p (emptyCache SearchResult) h0).2⟩

/-! ## C9: the history side effect -/

/-- When (and only when) the request runs the full pipeline and succeeds, the
stored history becomes `recordHistory`; a cache hit or an error leaves it
untouched. -/
theorem runSearch_history_cases (env : SearchEnv) (p : SearchParams)
    (c : CacheState SearchResult) :
    ((runSearch env p c).fromCache = true →
      (runSearch env p c).history = env.user.map (·.history)) ∧
    ((runSearch env p c).resp = .err →
      (runSearch env p c).history = env.user.map (·.history)) ∧
    ((runSearch env p c).fromCache = false → (runSearch env p c).resp ≠ .err →
      (runSearch env p c).history = recordHistory env p.query) := by
  rcases hl : lookupKey c.entries (getSearchKeyCtrl p) with _ | r
  · by_cases hst : env.localFails = true
    · rw [runSearch_miss_store env p c hl hst]
      exact ⟨fun h => by simp at h, fun _ => rfl, fun _ hne => absurd rfl hne⟩
    · have hst' : env.localFails = false := by simpa using hst
      by_cases hg : 5 ≤ env.localPage.length ∨ 10 ≤ env.localTotal
      · rw [runSearch_miss_gate env p c hl hst' hg]
        exact ⟨fun h => by simp [finishLocal] at h,
          fun h => by simp [finishLocal] at h, fun _ _ => rfl⟩
      · rcases hr : env.remote with _ | rs
        · rw [runSearch_miss_unavail env p c hl hst' hg hr]
          exact ⟨fun h => by simp at h, fun _ => rfl, fun _ hne => absurd rfl hne⟩
        · by_cases hn : 0 < rs.length
          · rw [runSearch_miss_merge env p c rs hl hst' hg hr hn]
            exact ⟨fun h => by simp at h, fun h => by simp at h, fun _ _ => rfl⟩
          · have hz : rs = [] := by
              cases rs with
              | nil => rfl
              | cons a as => simp at hn
            subst hz
            rw [runSearch_miss_zero env p c hl hst' hg hr]
            exact ⟨fun h => by simp [finishLocal] at h,
              fun h => by simp [finishLocal] at h, fun _ _ => rfl⟩
  · rw [runSearch_hit env p c r hl]
    exact ⟨fun _ => rfl, fun h => by simp at h, fun h => by simp at h⟩

/-- The response, the cache and the served-from-cache flag are independent of
whether the history-recording block throws. -/
theorem runSearch_hsf_inv (env : SearchEnv) (p : SearchParams)
    (c : CacheState SearchResult) (b : Bool) :
    (runSearch { env with historySaveFails := b } p c).resp
      = (runSearch env p c).resp ∧
    (runSearch { env with historySaveFails := b } p c).cache
      = (runSearch env p c).cache ∧
    (runSearch { env with historySaveFails := b } p c).fromCache
      = (runSearch env p c).fromCache := by
  set env' := { env with historySaveFails := b } with henv
  have hstq : env'.localFails = env.localFails := by rw [henv]
  have hpq : env'.localPage = env.localPage := by rw [henv]
  have htq : env'.localTotal = env.localTotal := by rw [henv]
  have hrq : env'.remote = env.remote := by rw [henv]
  rcases hl : lookupKey c.entries (getSearchKeyCtrl p) with _ | r
  · by_cases hst : env.localFails = true
    · rw [runSearch_miss_store env' p c hl (hstq.trans hst),
        runSearch_miss_store env p c hl hst]
      exact ⟨rfl, rfl, rfl⟩
    · have hst' : env.localFails = false := by simpa using hst
      by_cases hg : 5 ≤ env.localPage.length ∨ 10 ≤ env.localTotal
      · rw [runSearch_miss_gate env' p c hl (hstq.trans hst')
          (by rw [hpq, htq]; exact hg),
          runSearch_miss_gate env p c hl hst' hg]
        rw [henv]
        exact ⟨rfl, rfl, rfl⟩
      · rcases hr : env.remote with _ | rs
        · rw [runSearch_miss_unavail env' p c hl (hstq.trans hst')
            (by rw [hpq, htq]; exact hg) (hrq.trans hr),
            runSearch_miss_unavail env p c hl hst' hg hr]
          exact ⟨rfl, rfl, rfl⟩
        · by_cases hn : 0 < rs.length
          · rw [runSearch_miss_merge env' p c rs hl (hstq.trans hst')
              (by rw [hpq, htq]; exact hg) (hrq.trans hr) hn,
              runSearch_miss_merge env p c rs hl hst' hg hr hn]
            rw [henv]
            exact ⟨rfl, rfl, rfl⟩
          · have hz : rs = [] := by
              cases rs with
              | nil => rfl
              | cons a as => simp at hn
            subst hz
            rw [runSearch_miss_zero env' p c hl (hstq.trans hst')
              (by rw [hpq, htq]; exact hg) (hrq.trans hr),
              runSearch_miss_zero env p c hl hst' hg hr]
            rw [henv]
            exact ⟨rfl, rfl, rfl⟩
  · rw [runSearch_hit env' p c r hl, runSearch_hit env p c r hl]
    exact ⟨rfl, rfl, rfl⟩

/-- C9 (amended).  For every successful search by an authenticated caller
that was *not served from the cache*, the stored history becomes the query
text prepended as most-recent entry over the previous list capped at 10
(duplicates allowed); a failure while recording leaves the history unchanged
and never affects the response or the cache; a cache-hit search, although
successful, leaves the history unchanged. -/
theorem history_side_effect_amended (env : SearchEnv) (p : SearchParams)
    (c : CacheState SearchResult) (u : UserInfo) (hu : env.user = some u) :
    ((runSearch { env with historySaveFails := true } p c).resp
        = (runSearch { env with historySaveFails := false } p c).resp ∧
      (runSearch { env with historySaveFails := true } p c).cache
        = (runSearch { env with historySaveFails := false } p c).cache) ∧
    (env.historySaveFails = false → (runSearch env p c).fromCache = false →
      (runSearch env p c).resp ≠ .err →
      (runSearch env p c).history
        = some (addRecentSearch p.query env.now u.history)) ∧
    ((runSearch env p c).fromCache = true →
      (runSearch env p c).history = some u.history) ∧
    (∀ (q : String) (ts : Nat) (h' : List HistEntry),
      addRecentSearch q ts h' = ⟨q, ts⟩ :: h'.take 9 ∧
        (addRecentSearch q ts h').length ≤ 10) := by
  refine ⟨⟨?_, ?_⟩, ?_, ?_, fun q ts h' => ⟨addRecentSearch_eq q ts h', addRecentSearch_len q ts h'⟩⟩
  · exact (runSearch_hsf_inv env p c true).1.trans (runSearch_hsf_inv env p c false).1.symm
  · exact (runSearch_hsf_inv env p c true).2.1.trans (runSearch_hsf_inv env p c false).2.1.symm
  · intro hhsf hfc hne
    rw [(runSearch_history_cases env p c).2.2 hfc hne]
    simp [recordHistory, hu, hhsf]
  · intro hfc
    rw [(runSearch_history_cases env p c).1 hfc, hu]
    rfl

/-- Concrete cache-hit scenario for the C9 counterexample. -/
def c9p : SearchParams := ⟨"pizza", none, none, none, 1, 20⟩

def c9env : SearchEnv :=
  { user := some ⟨7, true, [⟨"old", 5⟩]⟩
    localPage := []
    localTotal := 0
    localFails := false
    remote := .ok []
    dedup := fun _ => none
    insertOk := fun _ => false
    freshId := fun _ => 0
    historySaveFails := false
    now := 42 }

def c9cache : CacheState SearchResult :=
  ⟨[(getSearchKeyCtrl c9p, ⟨[], 1, 20, 0⟩)], 0, 0, 0⟩

/-- Counterexample for C9 as stated: a successful search by an authenticated
caller that is served from the cache does *not* prepend the query to the
caller's recent-search history — the history is returned unchanged even
though nothing failed while recording. -/
theorem history_on_hit_counterexample :
    (runSearch c9env c9p c9cache).fromCache = true ∧
    (runSearch c9env c9p c9cache).resp = .ok [] 1 20 0 ∧
    c9env.historySaveFails = false ∧
    (runSearch c9env c9p c9cache).history = some [⟨"old", 5⟩] ∧
    (runSearch c9env c9p c9cache).history
      ≠ some (addRecentSearch c9p.query c9env.now [⟨"old", 5⟩]) := by
  have h : runSearch c9env c9p c9cache =
      { resp := .ok [] 1 20 0
        cache := { c9cache with hits := c9cache.hits + 1 }
        remoteCalled := false, fromCache := true
        history := c9env.user.map (·.history) } :=
    runSearch_hit c9env c9p c9cache ⟨[], 1, 20, 0⟩ (by
      show lookupKey [(getSearchKeyCtrl c9p, (⟨[], 1, 20, 0⟩ : SearchResult))]
          (getSearchKeyCtrl c9p) = some ⟨[], 1, 20, 0⟩
      simp [lookupKey, List.find?])
  rw [h]
  refine ⟨rfl, rfl, rfl, rfl, ?_⟩
  rw [addRecentSearch_eq]
  simp [c9env]

/-- Witness for C9 (amended) at the concrete hit scenario: the cache-hit
conjunct applies and returns the unchanged history. -/
theorem history_side_effect_amended_witness :
    c9env.user = some ⟨7, true, [⟨"old", 5⟩]⟩ ∧
    ((runSearch c9env c9p c9cache).fromCache = true →
      (runSearch c9env c9p c9cache).history = some [⟨"old", 5⟩]) := by
  refine ⟨rfl, ?_⟩
  exact (history_side_effect_amended c9env c9p c9cache ⟨7, true, [⟨"old", 5⟩]⟩ rfl).2.2.1

/-! ## C4: query-normalization vs filter case in the search cache key -/

theorem getSearchKey_query_congr {q1 q2 : String}
    (h : normalizeQuery q1 = normalizeQuery q2)
    (f : List (String × Option String)) :
    getSearchKey q1 f = getSearchKey q2 f := by
  unfold getSearchKey
  rw [h]

theorem getSearchKeyCtrl_query {p : SearchParams} {q2 : String}
    (h : normalizeQuery p.query = normalizeQuery q2) :
    getSearchKeyCtrl { p with query := q2 } = getSearchKeyCtrl p := by
  unfold getSearchKeyCtrl
  exact (getSearchKey_query_congr h (ctrlFilters p)).symm

/-- Gate-satisfying environment for the C4 scenario. -/
def c4env : SearchEnv :=
  { user := none
    localPage := [⟨1, "a", 3, some 50, false, true, "555", none⟩]
    localTotal := 10
    localFails := false
    remote := .ok []
    dedup := fun _ => none
    insertOk := fun _ => true
    freshId := fun _ => 0
    historySaveFails := false
    now := 0 }

def c4p1 : SearchParams := ⟨"plumber ", none, some "Austin", none, 1, 20⟩

def c4p2 : SearchParams := ⟨"PLUMBER", none, some "austin", none, 1, 20⟩

/-- Counterexample for C4 as stated: `"plumber "` with `{location:"Austin"}`
and `"PLUMBER"` with `{location:"austin"}` produce *different* cache keys —
the query is normalized but filter values are used verbatim — so the second
call misses instead of hitting and the hit counter does not increase at
all. -/
theorem searchKey_case_counterexample :
    getSearchKeyCtrl c4p1 ≠ getSearchKeyCtrl c4p2 ∧
    (runSearch c4env c4p2
      (runSearch c4env c4p1 (emptyCache SearchResult)).cache).fromCache = false ∧
    (runSearch c4env c4p2
        (runSearch c4env c4p1 (emptyCache SearchResult)).cache).cache.hits
      = (runSearch c4env c4p1 (emptyCache SearchResult)).cache.hits := by
  decide

/-- C4 (amended).  Two search requests whose query texts normalize
identically and whose filter values (including the location's letter case)
are byte-identical compute the same cache key; after the first populates the
cache, the second is served from that entry and the hit counter increments
by exactly 1. -/
theorem searchKey_normalization_amended (env1 env2 : SearchEnv)
    (p1 : SearchParams) (q2 : String) (c : CacheState SearchResult)
    (hnorm : normalizeQuery p1.query = normalizeQuery q2)
    (hmiss : lookupKey c.entries (getSearchKeyCtrl p1) = none)
    (hstore : env1.localFails = false)
    (hgate : 5 ≤ env1.localPage.length ∨ 10 ≤ env1.localTotal) :
    (runSearch env2 { p1 with query := q2 }
      (runSearch env1 p1 c).cache).fromCache = true ∧
    (runSearch env2 { p1 with query := q2 } (runSearch env1 p1 c).cache).resp
      = .ok (env1.localPage.map redact) p1.page p1.limit env1.localTotal ∧
    (runSearch env2 { p1 with query := q2 }
        (runSearch env1 p1 c).cache).cache.hits
      = (runSearch env1 p1 c).cache.hits + 1 := by
  rw [runSearch_miss_gate env1 p1 c hmiss hstore hgate]
  have hlook : lookupKey (finishLocal env1 p1 { c with misses := c.misses + 1 }
      (getSearchKeyCtrl p1) env1.localPage env1.localTotal false).cache.entries
      (getSearchKeyCtrl { p1 with query := q2 })
      = some ⟨env1.localPage.map redact, p1.page, p1.limit, env1.localTotal⟩ := by
    rw [getSearchKeyCtrl_query hnorm]
    exact lookupKey_setEntry_self _ _ _
  rw [runSearch_hit env2 { p1 with query := q2 } _ _ hlook]
  exact ⟨rfl, rfl, rfl⟩

def c4p1e : SearchParams := ⟨"plumber ", none, some "austin", none, 1, 20⟩

/-- Witness for C4 (amended): with the location value `"austin"` on both
calls, `"plumber "` then `"PLUMBER"` hit the same entry and the hit counter
increments by exactly 1. -/
theorem searchKey_normalization_amended_witness :
    (normalizeQuery c4p1e.query = normalizeQuery "PLUMBER" ∧
      lookupKey (emptyCache SearchResult).entries (getSearchKeyCtrl c4p1e) = none ∧
      10 ≤ c4env.localTotal) ∧
    (runSearch c4env { c4p1e with query := "PLUMBER" }
      (runSearch c4env c4p1e (emptyCache SearchResult)).cache).fromCache = true ∧
    (runSearch c4env { c4p1e with query := "PLUMBER" }
        (runSearch c4env c4p1e (emptyCache SearchResult)).cache).cache.hits
      = (runSearch c4env c4p1e (emptyCache SearchResult)).cache.hits + 1 := by
  refine ⟨⟨by decide, rfl, by norm_num [c4env]⟩, ?_, ?_⟩
  · exact (searchKey_normalization_amended c4env c4env c4p1e "PLUMBER"
      (emptyCache SearchResult) (by decide) rfl rfl (Or.inr (by norm_num [c4env]))).1
  · exact (searchKey_normalization_amended c4env c4env c4p1e "PLUMBER"
      (emptyCache SearchResult) (by decide) rfl rfl (Or.inr (by norm_num [c4env]))).2.2

/-! ## C7: merge, ranking and pagination on the fallback path -/

/-- The code's comparator as a Boolean "may stay before" relation. -/
def leCode (a b : ServiceRecord) : Bool := decide (svcCompare a b ≤ 0)

/-- All consecutive pairs of the list satisfy `f`. -/
def chainOk (f : ServiceRecord → ServiceRecord → Bool) : List ServiceRecord → Bool
  | [] => true
  | [_] => true
  | a :: b :: rest => f a b && chainOk f (b :: rest)

/-- One step of first-occurrence de-duplication. -/
def dedupStep (acc : List Nat) (x : Nat) : List Nat :=
  if acc.contains x then acc else acc ++ [x]

/-- First-occurrence de-duplication of a list of ids. -/
def firstDedup (l : List Nat) : List Nat := l.foldl dedupStep []

theorem svcCompare_add (a b : ServiceRecord) :
    svcCompare a b + svcCompare b a = 0 := by
  unfold svcCompare
  rcases a.relevance with _ | ra <;> rcases b.relevance with _ | rb <;>
    dsimp only <;> omega

theorem chainOk_cons_iff (f : ServiceRecord → ServiceRecord → Bool)
    (y : ServiceRecord) (l : List ServiceRecord) :
    chainOk f (y :: l) = true ↔
      ((∀ z, l.head? = some z → f y z = true) ∧ chainOk f l = true) := by
  cases l with
  | nil => simp [chainOk]
  | cons z zs =>
      show (f y z && chainOk f (z :: zs)) = true ↔ _
      simp only [Bool.and_eq_true, List.head?_cons]
      constructor
      · rintro ⟨h1, h2⟩
        exact ⟨fun w hw => by cases hw; exact h1, h2⟩
      · rintro ⟨h1, h2⟩
        exact ⟨h1 z rfl, h2⟩

theorem insOrd_head (x : ServiceRecord) (l : List ServiceRecord) :
    (insOrd x l).head? = some x ∨ (insOrd x l).head? = l.head? := by
  cases l with
  | nil => exact Or.inl rfl
  | cons y ys =>
      unfold insOrd
      by_cases hc : svcCompare x y ≤ 0
      · rw [if_pos hc]; exact Or.inl rfl
      · rw [if_neg hc]; exact Or.inr rfl

theorem chainOk_insOrd (x : ServiceRecord) (l : List ServiceRecord)
    (h : chainOk leCode l = true) : chainOk leCode (insOrd x l) = true := by
  induction l with
  | nil => rfl
  | cons y ys ih =>
      rw [chainOk_cons_iff] at h
      obtain ⟨hy, hys⟩ := h
      unfold insOrd
      by_cases hc : svcCompare x y ≤ 0
      · rw [if_pos hc, chainOk_cons_iff]
        refine ⟨fun z hz => ?_, (chainOk_cons_iff _ _ _).mpr ⟨hy, hys⟩⟩
        cases hz
        exact decide_eq_true hc
      · rw [if_neg hc, chainOk_cons_iff]
        refine ⟨fun z hz => ?_, ih hys⟩
        rcases insOrd_head x ys with h' | h'
        · rw [h'] at hz
          cases hz
          have := svcCompare_add x y
          exact decide_eq_true (by omega)
        · rw [h'] at hz
          exact hy z hz

theorem sortCmp_chain (l : List ServiceRecord) :
    chainOk leCode (sortCmp l) = true := by
  induction l with
  | nil => rfl
  | cons x xs ih => exact chainOk_insOrd x (sortCmp xs) ih

theorem insOrd_length (x : ServiceRecord) (l : List ServiceRecord) :
    (insOrd x l).length = l.length + 1 := by
  induction l with
  | nil => rfl
  | cons y ys ih =>
      unfold insOrd
      by_cases hc : svcCompare x y ≤ 0
      · rw [if_pos hc]; rfl
      · rw [if_neg hc]
        simp [ih]

theorem sortCmp_length (l : List ServiceRecord) :
    (sortCmp l).length = l.length := by
  induction l with
  | nil => rfl
  | cons x xs ih =>
      show (insOrd x (sortCmp xs)).length = xs.length + 1
      rw [insOrd_length, ih]

theorem any_id_eq_contains (m : List ServiceRecord) (s : ServiceRecord) :
    m.any (fun t => t.id == s.id) = (m.map (·.id)).contains s.id := by
  induction m with
  | nil => rfl
  | cons t ts ih =>
      simp only [List.any_cons, List.map_cons, List.contains_cons, ih]
      rcases eq_or_ne t.id s.id with h | h
      · simp [h]
      · have h1 : (t.id == s.id) = false := beq_eq_false_iff_ne.mpr h
        have h2 : (s.id == t.id) = false := beq_eq_false_iff_ne.mpr (Ne.symm h)
        simp [h1, h2]

theorem mapSetR_ids (m : List ServiceRecord) (s : ServiceRecord) :
    (mapSetR m s).map (·.id) = dedupStep (m.map (·.id)) s.id := by
  unfold mapSetR dedupStep
  rw [any_id_eq_contains]
  by_cases h : ((m.map (·.id)).contains s.id) = true
  · rw [if_pos h, if_pos h, List.map_map]
    apply List.map_congr_left
    intro t _
    by_cases ht : t.id = s.id
    · simp [Function.comp, ht]
    · simp [Function.comp, ht]
  · rw [if_neg h, if_neg h, List.map_append]
    rfl

theorem foldl_mapSetR_ids (l : List ServiceRecord) (m : List ServiceRecord) :
    (l.foldl mapSetR m).map (·.id)
      = (l.map (·.id)).foldl dedupStep (m.map (·.id)) := by
  induction l generalizing m with
  | nil => rfl
  | cons s ss ih =>
      simp only [List.foldl_cons, List.map_cons]
      rw [ih, mapSetR_ids]

theorem foldl_guarded_ids (news : List ServiceRecord) (m : List ServiceRecord) :
    ((news.foldl
        (fun m s => if m.any (fun t => t.id == s.id) then m else mapSetR m s)
        m)).map (·.id)
      = (news.map (·.id)).foldl dedupStep (m.map (·.id)) := by
  induction news generalizing m with
  | nil => rfl
  | cons s ss ih =>
      simp only [List.foldl_cons, List.map_cons]
      rw [ih]
      congr 1
      rw [any_id_eq_contains]
      by_cases h : ((m.map (·.id)).contains s.id) = true
      · rw [if_pos h]
        unfold dedupStep
        rw [if_pos h]
      · rw [if_neg h, mapSetR_ids]

theorem mergeById_ids (locals news : List ServiceRecord) :
    (mergeById locals news).map (·.id)
      = firstDedup ((locals ++ news).map (·.id)) := by
  unfold mergeById firstDedup
  rw [foldl_guarded_ids, foldl_mapSetR_ids, List.map_append, List.foldl_append]
  rfl

/-- C7 (amended).  On the remote-fallback path with nonempty remote results,
the response contains the id-keyed union of local and ingested records in
which the *first* write wins (locals before ingested, first occurrence per
id), sorted by the code's comparator — relevance descending when both records
carry a relevance, otherwise rating descending, consecutive records ordered
accordingly with ties keeping insertion order — then sliced to the requested
page/limit and redacted; the reported total is the size of the merged union
(7 for 2 locals plus 5 new unique records). -/
theorem merge_rank_amended (env : SearchEnv) (p : SearchParams)
    (c : CacheState SearchResult) (rs : List RemoteRecord)
    (hmiss : lookupKey c.entries (getSearchKeyCtrl p) = none)
    (hstore : env.localFails = false)
    (hgate : ¬(5 ≤ env.localPage.length ∨ 10 ≤ env.localTotal))
    (hrem : env.remote = .ok rs) (hne : 0 < rs.length) :
    (runSearch env p c).resp = .ok
        ((((sortCmp (mergeById env.localPage (rs.filterMap (ingestOne env)))).drop
            ((p.page - 1) * p.limit)).take p.limit).map redact)
        p.page p.limit
        (sortCmp (mergeById env.localPage (rs.filterMap (ingestOne env)))).length ∧
    (sortCmp (mergeById env.localPage (rs.filterMap (ingestOne env)))).length
      = (mergeById env.localPage (rs.filterMap (ingestOne env))).length ∧
    (mergeById env.localPage (rs.filterMap (ingestOne env))).map (·.id)
      = firstDedup ((env.localPage ++ rs.filterMap (ingestOne env)).map (·.id)) ∧
    chainOk leCode
      (sortCmp (mergeById env.localPage (rs.filterMap (ingestOne env)))) = true := by
  refine ⟨?_, sortCmp_length _, mergeById_ids _ _, sortCmp_chain _⟩
  rw [runSearch_miss_merge env p c rs hmiss hstore hgate hrem hne]

/-- Locals for the C7 scenario: equal relevance 50, ratings 1 and 4. -/
def c7L1 : ServiceRecord := ⟨1, "l1", 1, some 50, false, true, "c1", none⟩

def c7L2 : ServiceRecord := ⟨2, "l2", 4, some 50, false, true, "c2", none⟩

/-- Five new unique remote records with distinct relevances. -/
def c7rs : List RemoteRecord :=
  [⟨"r1", some 0, some 90, some "x", some "u1"⟩,
   ⟨"r2", some 0, some 80, some "x", some "u2"⟩,
   ⟨"r3", some 0, some 70, some "x", some "u3"⟩,
   ⟨"r4", some 0, some 60, some "x", some "u4"⟩,
   ⟨"r5", some 0, some 55, some "x", some "u5"⟩]

def c7env : SearchEnv :=
  { user := none
    localPage := [c7L1, c7L2]
    localTotal := 2
    localFails := false
    remote := .ok c7rs
    dedup := fun _ => none
    insertOk := fun _ => true
    freshId := fun r => (jsOrZero r.relevance).toNat
    historySaveFails := false
    now := 0 }

def c7p : SearchParams := ⟨"tutor", none, none, none, 1, 20⟩

/-- The ordering C7 claims: relevance descending with a record carrying a
relevance ranking above one lacking it, ties broken by rating descending. -/
def claimLe (a b : ServiceRecord) : Bool :=
  match a.relevance, b.relevance with
  | some ra, some rb =>
      decide (rb < ra) || (ra == rb && decide (b.rating ≤ a.rating))
  | some _, none => true
  | none, some _ => false
  | none, none => decide (b.rating ≤ a.rating)

/-- Counterexample for C7 as stated: 2 local matches plus 5 new unique remote
records do produce a reported total of 7, but the order violates the claimed
"ties broken by rating descending": the two locals tie at relevance 50 and
stay in insertion order (rating 1 before rating 4), because the comparator
never consults the rating when both records carry a relevance. -/
theorem merge_rank_counterexample :
    respTotalOf (runSearch c7env c7p (emptyCache SearchResult)).resp = some 7 ∧
    (respDataOf (runSearch c7env c7p (emptyCache SearchResult)).resp).map
      (chainOk claimLe) = some false := by
  decide

/-- Witness for C7 (amended) at the concrete 2-local + 5-remote scenario:
the merged union has 7 records and the sorted output respects the code's
comparator pairwise. -/
theorem merge_rank_amended_witness :
    (lookupKey (emptyCache SearchResult).entries (getSearchKeyCtrl c7p) = none ∧
      ¬(5 ≤ c7env.localPage.length ∨ 10 ≤ c7env.localTotal) ∧
      c7env.remote = .ok c7rs ∧ 0 < c7rs.length) ∧
    ((sortCmp (mergeById c7env.localPage (c7rs.filterMap (ingestOne c7env)))).length
        = (mergeById c7env.localPage (c7rs.filterMap (ingestOne c7env))).length ∧
      chainOk leCode
        (sortCmp (mergeById c7env.localPage (c7rs.filterMap (ingestOne c7env))))
        = true) ∧
    (mergeById c7env.localPage (c7rs.filterMap (ingestOne c7env))).length = 7 := by
  refine ⟨⟨rfl, by decide, rfl, by decide⟩, ⟨?_, ?_⟩, by decide⟩
  · exact (merge_rank_amended c7env c7p (emptyCache SearchResult) c7rs rfl rfl
      (by decide) rfl (by decide)).2.1
  · exact (merge_rank_amended c7env c7p (emptyCache SearchResult) c7rs rfl rfl
      (by decide) rfl (by decide)).2.2.2

/-! ## C5: the key builder is canonical -/

theorem strDataInj {a b : String} (h : a.data = b.data) : a = b := by
  cases a
  cases b
  cases h
  rfl

/-- The strict key order used to pin down the sorted filter list uniquely. -/
def keyLt (a b : String × String) : Prop := a.1.data < b.1.data

instance : IsAntisymm (String × String) keyLt :=
  ⟨fun _ _ h h' => absurd h' (lt_asymm h)⟩

theorem sorted_keyLt_of_nodup {l : List (String × String)}
    (hs : l.Sorted keyLe) (hnd : (l.map Prod.fst).Nodup) : l.Sorted keyLt := by
  have hne : l.Pairwise (fun a b : String × String => a.1 ≠ b.1) :=
    List.pairwise_map.mp hnd
  refine (hs.and hne).imp ?_
  rintro a b ⟨hle, hneq⟩
  exact lt_of_le_of_ne hle (fun hd => hneq (strDataInj hd))

theorem insertionSort_eq_of_perm {l1 l2 : List (String × String)}
    (hperm : l1.Perm l2) (hnd : (l1.map Prod.fst).Nodup) :
    List.insertionSort keyLe l1 = List.insertionSort keyLe l2 := by
  have hp : (List.insertionSort keyLe l1).Perm (List.insertionSort keyLe l2) :=
    (List.perm_insertionSort keyLe l1).trans
      (hperm.trans (List.perm_insertionSort keyLe l2).symm)
  have hnd1 : ((List.insertionSort keyLe l1).map Prod.fst).Nodup :=
    (((List.perm_insertionSort keyLe l1).map Prod.fst).nodup_iff).mpr hnd
  have hnd2 : ((List.insertionSort keyLe l2).map Prod.fst).Nodup :=
    ((hp.map Prod.fst).nodup_iff).mp hnd1
  exact List.eq_of_perm_of_sorted hp
    (sorted_keyLt_of_nodup (List.sorted_insertionSort keyLe l1) hnd1)
    (sorted_keyLt_of_nodup (List.sorted_insertionSort keyLe l2) hnd2)

/-- C5.  For all pairs of query texts identical after lowercasing, trimming
and collapsing internal whitespace (i.e. with equal `normalizeQuery`), and
all pairs of filter maps whose retained entries — after dropping
null/undefined/empty-string values — are the same up to insertion order
(with filter names unique, as JS object keys are), `getSearchKey` produces
byte-identical cache keys. -/
theorem keyBuilder_canonical (q1 q2 : String)
    (f1 f2 : List (String × Option String))
    (hq : normalizeQuery q1 = normalizeQuery q2)
    (hperm : (cleanFilters f1).Perm (cleanFilters f2))
    (hnd : ((cleanFilters f1).map Prod.fst).Nodup) :
    getSearchKey q1 f1 = getSearchKey q2 f2 := by
  unfold getSearchKey
  rw [hq, insertionSort_eq_of_perm hperm hnd]

/-- Witness for C5: queries differing in case/whitespace and filter maps
differing in insertion order and null/empty entries give the same key. -/
theorem keyBuilder_canonical_witness :
    (normalizeQuery " Hello  WORLD" = normalizeQuery "hello world " ∧
      (cleanFilters [("b", some "2"), ("a", some "1"), ("c", none)]).Perm
        (cleanFilters [("a", some "1"), ("c", some ""), ("b", some "2")]) ∧
      ((cleanFilters [("b", some "2"), ("a", some "1"), ("c", none)]).map
        Prod.fst).Nodup) ∧
    getSearchKey " Hello  WORLD" [("b", some "2"), ("a", some "1"), ("c", none)]
      = getSearchKey "hello world " [("a", some "1"), ("c", some ""), ("b", some "2")] := by
  refine ⟨⟨by decide, by decide, by decide⟩, ?_⟩
  exact keyBuilder_canonical _ _ _ _ (by decide) (by decide) (by decide)

/-! ## C10: page and limit are part of the search cache key -/

/-- Value of a little-endian digit list. -/
def valOf : List Nat → Nat
  | [] => 0
  | d :: ds => d + 10 * valOf ds

theorem revDigs_val : ∀ (fuel n : Nat), n ≤ fuel → valOf (revDigs fuel n) = n := by
  intro fuel
  induction fuel with
  | zero =>
      intro n hn
      have : n = 0 := Nat.le_zero.mp hn
      subst this
      rfl
  | succ f ih =>
      intro n hn
      cases n with
      | zero => rfl
      | succ m =>
          show valOf ((m + 1) % 10 :: revDigs f ((m + 1) / 10)) = m + 1
          have hlt : (m + 1) / 10 < m + 1 := Nat.div_lt_self (Nat.succ_pos m) (by norm_num)
          have hdiv : (m + 1) / 10 ≤ f := by omega
          show (m + 1) % 10 + 10 * valOf (revDigs f ((m + 1) / 10)) = m + 1
          rw [ih _ hdiv]
          omega

theorem revDigs_lt : ∀ (fuel n : Nat), ∀ d ∈ revDigs fuel n, d < 10 := by
  intro fuel
  induction fuel with
  | zero =>
      intro n d hd
      cases n <;> simp [revDigs] at hd
  | succ f ih =>
      intro n d hd
      cases n with
      | zero => simp [revDigs] at hd
      | succ m =>
          rcases List.mem_cons.mp hd with h | h
          · subst h
            exact Nat.mod_lt _ (by norm_num)
          · exact ih _ d h

theorem digChar_isDigit : ∀ d, d < 10 → (digChar d).isDigit = true := by decide

theorem digChar_inj :
    ∀ d1, d1 < 10 → ∀ d2, d2 < 10 → digChar d1 = digChar d2 → d1 = d2 := by decide

/-- Digits of `n` for the uniform treatment of `natStr` (`[0]` for zero). -/
def digsOf (n : Nat) : List Nat := if n = 0 then [0] else revDigs n n

theorem digsOf_lt (n : Nat) : ∀ d ∈ digsOf n, d < 10 := by
  unfold digsOf
  by_cases h : n = 0
  · rw [if_pos h]; intro d hd; simp at hd; omega
  · rw [if_neg h]; exact revDigs_lt n n

theorem valOf_digsOf (n : Nat) : valOf (digsOf n) = n := by
  unfold digsOf
  by_cases h : n = 0
  · rw [if_pos h, h]; rfl
  · rw [if_neg h]; exact revDigs_val n n le_rfl

theorem natStr_eq_mk (n : Nat) :
    natStr n = String.mk (((digsOf n).reverse).map digChar) := by
  unfold natStr digsOf
  by_cases h : n = 0
  · rw [if_pos h, if_pos h]; rfl
  · rw [if_neg h, if_neg h]

theorem map_digChar_inj : ∀ (l1 l2 : List Nat), (∀ d ∈ l1, d < 10) →
    (∀ d ∈ l2, d < 10) → l1.map digChar = l2.map digChar → l1 = l2 := by
  intro l1
  induction l1 with
  | nil =>
      intro l2 _ _ h
      cases l2 with
      | nil => rfl
      | cons b bs => simp at h
  | cons a as ih =>
      intro l2 h1 h2 h
      cases l2 with
      | nil => simp at h
      | cons b bs =>
          simp only [List.map_cons, List.cons.injEq] at h
          obtain ⟨hab, hrest⟩ := h
          have ha := digChar_inj a (h1 a (by simp)) b (h2 b (by simp)) hab
          rw [ha, ih bs (fun d hd => h1 d (by simp [hd]))
            (fun d hd => h2 d (by simp [hd])) hrest]

theorem natStr_inj {a b : Nat} (h : natStr a = natStr b) : a = b := by
  rw [natStr_eq_mk, natStr_eq_mk] at h
  have hd : ((digsOf a).reverse).map digChar = ((digsOf b).reverse).map digChar :=
    congrArg String.data h
  have hrev : (digsOf a).reverse = (digsOf b).reverse :=
    map_digChar_inj _ _ (fun d hd' => digsOf_lt a d (List.mem_reverse.mp hd'))
      (fun d hd' => digsOf_lt b d (List.mem_reverse.mp hd')) hd
  have : digsOf a = digsOf b := List.reverse_injective hrev
  rw [← valOf_digsOf a, ← valOf_digsOf b, this]

theorem natStr_digits (n : Nat) : ∀ c ∈ (natStr n).data, c.isDigit = true := by
  rw [natStr_eq_mk]
  intro c hc
  obtain ⟨d, hd, rfl⟩ := List.mem_map.mp hc
  exact digChar_isDigit d (digsOf_lt n d (List.mem_reverse.mp hd))

theorem natStr_ne_empty (n : Nat) : natStr n ≠ "" := by
  rw [natStr_eq_mk]
  intro h
  have hd : ((digsOf n).reverse).map digChar = [] := congrArg String.data h
  have : digsOf n ≠ [] := by
    unfold digsOf
    by_cases hz : n = 0
    · rw [if_pos hz]; simp
    · rw [if_neg hz]
      cases n with
      | zero => exact absurd rfl hz
      | succ m => simp [revDigs]
  simp [this] at hd

/-! ### String/list append helpers -/

theorem strData_append (a b : String) : (a ++ b).data = a.data ++ b.data := rfl

theorem strLen_append (a b : String) : (a ++ b).length = a.length + b.length := by
  show (a ++ b).data.length = a.data.length + b.data.length
  rw [strData_append, List.length_append]

theorem entStr_data (e : String × String) :
    (entStr e).data = e.1.data ++ ':' :: e.2.data := by
  unfold entStr
  rw [strData_append, strData_append]
  simp

theorem joinBar_len_ge (x : String) :
    ∀ (L : List String), x ∈ L → x.length ≤ (joinBar L).length := by
  intro L
  induction L with
  | nil => intro hx; simp at hx
  | cons a rest ih =>
      intro hx
      cases rest with
      | nil =>
          rw [List.mem_singleton.mp hx]
          exact le_rfl
      | cons b bs =>
          rcases List.mem_cons.mp hx with rfl | hx'
          · show x.length ≤ (x ++ "|" ++ joinBar (b :: bs)).length
            rw [strLen_append, strLen_append]
            omega
          · have h := ih hx'
            show x.length ≤ (a ++ "|" ++ joinBar (b :: bs)).length
            rw [strLen_append, strLen_append]
            omega

/-- Maximal digit runs followed by a non-digit (or nothing) cancel. -/
theorem digitCancel : ∀ (x1 t1 x2 t2 : List Char),
    (∀ c ∈ x1, c.isDigit = true) → (∀ c ∈ x2, c.isDigit = true) →
    (∀ c, t1.head? = some c → c.isDigit = false) →
    (∀ c, t2.head? = some c → c.isDigit = false) →
    x1 ++ t1 = x2 ++ t2 → x1 = x2 ∧ t1 = t2 := by
  intro x1
  induction x1 with
  | nil =>
      intro t1 x2 t2 _ h2 ht1 _ heq
      cases x2 with
      | nil => exact ⟨rfl, by simpa using heq⟩
      | cons d ds =>
          exfalso
          simp only [List.nil_append, List.cons_append] at heq
          have hd : d.isDigit = true := h2 d (by simp)
          have hh : t1.head? = some d := by rw [heq]; rfl
          rw [ht1 d hh] at hd
          exact Bool.false_ne_true hd
  | cons a as ih =>
      intro t1 x2 t2 h1 h2 ht1 ht2 heq
      cases x2 with
      | nil =>
          exfalso
          simp only [List.cons_append, List.nil_append] at heq
          have ha : a.isDigit = true := h1 a (by simp)
          have hh : t2.head? = some a := by rw [← heq]; rfl
          rw [ht2 a hh] at ha
          exact Bool.false_ne_true ha
      | cons b bs =>
          simp only [List.cons_append, List.cons.injEq] at heq
          obtain ⟨hab, heq'⟩ := heq
          obtain ⟨hx, ht⟩ := ih t1 bs t2 (fun c hc => h1 c (by simp [hc]))
            (fun c hc => h2 c (by simp [hc])) ht1 ht2 heq'
          exact ⟨by rw [hab, hx], ht⟩

/-! ### Rewriting the page/limit values of a filter entry list -/

/-- Replace the values of the `page` and `limit` entries, keeping names. -/
def rwPL (ps2 ls2 : String) (e : String × String) : String × String :=
  if e.1 = "page" then (e.1, ps2) else if e.1 = "limit" then (e.1, ls2) else e

theorem rwPL_fst (ps2 ls2 : String) (e : String × String) :
    (rwPL ps2 ls2 e).1 = e.1 := by
  unfold rwPL
  split_ifs <;> rfl

theorem orderedInsert_map_rw (ps2 ls2 : String) (e : String × String) :
    ∀ (s : List (String × String)),
      List.orderedInsert keyLe (rwPL ps2 ls2 e) (s.map (rwPL ps2 ls2))
        = (List.orderedInsert keyLe e s).map (rwPL ps2 ls2) := by
  intro s
  induction s with
  | nil => rfl
  | cons y ys ih =>
      simp only [List.map_cons, List.orderedInsert]
      by_cases h : keyLe e y
      · have h' : keyLe (rwPL ps2 ls2 e) (rwPL ps2 ls2 y) := by
          unfold keyLe
          rw [rwPL_fst, rwPL_fst]
          exact h
        rw [if_pos h, if_pos h']
        rfl
      · have h' : ¬keyLe (rwPL ps2 ls2 e) (rwPL ps2 ls2 y) := by
          unfold keyLe
          rw [rwPL_fst, rwPL_fst]
          exact h
        rw [if_neg h, if_neg h', ih]
        rfl

theorem insertionSort_map_rw (ps2 ls2 : String) :
    ∀ (l : List (String × String)),
      List.insertionSort keyLe (l.map (rwPL ps2 ls2))
        = (List.insertionSort keyLe l).map (rwPL ps2 ls2) := by
  intro l
  induction l with
  | nil => rfl
  | cons e es ih =>
      simp only [List.map_cons, List.insertionSort]
      rw [ih, orderedInsert_map_rw]

/-! ### Shape of the controller's cleaned filter list -/

theorem cleanEnt_fst {a : String × Option String} {e : String × String}
    (h : cleanEnt a = some e) : e.1 = a.1 := by
  obtain ⟨k, v⟩ := a
  cases v with
  | none => simp [cleanEnt] at h
  | some s =>
      simp only [cleanEnt] at h
      split at h
      · exact absurd h (by simp)
      · cases h
        rfl

theorem mem_cleanFilters_fst {l : List (String × Option String)}
    {e : String × String} (h : e ∈ cleanFilters l) : e.1 ∈ l.map Prod.fst := by
  obtain ⟨a, ha, hfa⟩ := List.mem_filterMap.mp h
  rw [cleanEnt_fst hfa]
  exact List.mem_map_of_mem _ ha

theorem cleanCtrl_split (p : SearchParams) :
    cleanFilters (ctrlFilters p)
      = cleanFilters [("category", p.category), ("location", p.location),
          ("price", p.price)]
        ++ [("page", natStr p.page), ("limit", natStr p.limit)] := by
  show cleanFilters ([("category", p.category), ("location", p.location),
      ("price", p.price)]
    ++ [("page", some (natStr p.page)), ("limit", some (natStr p.limit))]) = _
  unfold cleanFilters
  rw [List.filterMap_append]
  congr 1
  simp [cleanEnt, natStr_ne_empty p.page, natStr_ne_empty p.limit]

theorem cleanFirst3_map_rw (p : SearchParams) (ps2 ls2 : String) :
    (cleanFilters [("category", p.category), ("location", p.location),
        ("price", p.price)]).map (rwPL ps2 ls2)
      = cleanFilters [("category", p.category), ("location", p.location),
          ("price", p.price)] := by
  have hfix : ∀ e ∈ cleanFilters [("category", p.category),
      ("location", p.location), ("price", p.price)], rwPL ps2 ls2 e = e := by
    intro e he
    have hk := mem_cleanFilters_fst he
    simp only [List.map_cons, List.map_nil, List.mem_cons,
      List.not_mem_nil, or_false] at hk
    unfold rwPL
    rcases hk with h | h | h
    · rw [if_neg (by rw [h]; decide), if_neg (by rw [h]; decide)]
    · rw [if_neg (by rw [h]; decide), if_neg (by rw [h]; decide)]
    · rw [if_neg (by rw [h]; decide), if_neg (by rw [h]; decide)]
  calc (cleanFilters _).map (rwPL ps2 ls2)
      = (cleanFilters [("category", p.category), ("location", p.location),
          ("price", p.price)]).map id := List.map_congr_left hfix
    _ = _ := List.map_id _

theorem cleanCtrl_rw (p : SearchParams) (p2 l2 : Nat) :
    cleanFilters (ctrlFilters { p with page := p2, limit := l2 })
      = (cleanFilters (ctrlFilters p)).map (rwPL (natStr p2) (natStr l2)) := by
  rw [cleanCtrl_split p, cleanCtrl_split { p with page := p2, limit := l2 }]
  rw [List.map_append, cleanFirst3_map_rw]
  congr 1

/-! ### Injectivity of the joined filter string in the page/limit values -/

theorem entStr_val_inj (k v1 v2 : String)
    (h : entStr (k, v1) = entStr (k, v2)) : v1 = v2 := by
  have hd := congrArg String.data h
  rw [entStr_data, entStr_data] at hd
  have hd' := List.append_cancel_left hd
  simp only [List.cons.injEq, true_and] at hd'
  exact strDataInj hd'

theorem barTail (x J1 J2 : String) (heq : x ++ "|" ++ J1 = x ++ "|" ++ J2) :
    J1 = J2 := by
  have hd := congrArg String.data heq
  rw [strData_append, strData_append, strData_append, strData_append] at hd
  rw [List.append_assoc, List.append_assoc] at hd
  have hd' := List.append_cancel_left hd
  have hd'' := List.append_cancel_left hd'
  exact strDataInj hd''

theorem barSplit (k v1 v2 J1 J2 : String)
    (h1 : ∀ c ∈ v1.data, c.isDigit = true)
    (h2 : ∀ c ∈ v2.data, c.isDigit = true)
    (heq : entStr (k, v1) ++ "|" ++ J1 = entStr (k, v2) ++ "|" ++ J2) :
    v1 = v2 ∧ J1 = J2 := by
  have hd := congrArg String.data heq
  rw [strData_append, strData_append, strData_append, strData_append,
    entStr_data, entStr_data] at hd
  simp only [List.append_assoc, List.cons_append, List.singleton_append] at hd
  have hd' := List.append_cancel_left hd
  simp only [List.cons.injEq, true_and] at hd'
  have hbar : ∀ (J : String) (c : Char),
      ('|' :: J.data).head? = some c → c.isDigit = false := by
    intro J c hc
    have := Option.some.inj hc
    rw [← this]
    decide
  obtain ⟨hv, ht⟩ := digitCancel v1.data ('|' :: J1.data) v2.data ('|' :: J2.data)
    h1 h2 (hbar J1) (hbar J2) hd'
  refine ⟨strDataInj hv, ?_⟩
  simp only [List.cons.injEq, true_and] at ht
  exact strDataInj ht

theorem joinInj (ps1 ls1 ps2 ls2 : String)
    (hd1 : ∀ c ∈ ps1.data, c.isDigit = true)
    (hd3 : ∀ c ∈ ps2.data, c.isDigit = true)
    (hd2 : ∀ c ∈ ls1.data, c.isDigit = true)
    (hd4 : ∀ c ∈ ls2.data, c.isDigit = true) :
    ∀ (L : List (String × String)),
      (∀ e ∈ L, e.1 = "page" → e.2 = ps1) →
      (∀ e ∈ L, e.1 = "limit" → e.2 = ls1) →
      joinBar (L.map entStr) = joinBar ((L.map (rwPL ps2 ls2)).map entStr) →
      (("page", ps1) ∈ L → ps1 = ps2) ∧ (("limit", ls1) ∈ L → ls1 = ls2) := by
  intro L
  induction L with
  | nil =>
      intro _ _ _
      exact ⟨fun h => absurd h (List.not_mem_nil _),
        fun h => absurd h (List.not_mem_nil _)⟩
  | cons e rest ih =>
      intro hpv hlv heq
      obtain ⟨k, v⟩ := e
      by_cases hpk : k = "page"
      · subst hpk
        have hv : ps1 = v := (hpv ("page", v) (List.mem_cons_self _ _) rfl).symm
        subst hv
        have hrw : rwPL ps2 ls2 ("page", ps1) = ("page", ps2) := by
          simp [rwPL]
        cases rest with
        | nil =>
            simp only [List.map_cons, List.map_nil, hrw, joinBar] at heq
            have hps : ps1 = ps2 := entStr_val_inj "page" ps1 ps2 heq
            refine ⟨fun _ => hps, fun hm => ?_⟩
            have h := List.mem_singleton.mp hm
            have hh : "limit" = "page" := congrArg Prod.fst h
            exact absurd hh (by decide)
        | cons r rs =>
            simp only [List.map_cons, hrw, joinBar] at heq
            obtain ⟨hps, hJ⟩ := barSplit "page" ps1 ps2 _ _ hd1 hd3 heq
            have ihres := ih
              (fun e he hk => hpv e (List.mem_cons_of_mem _ he) hk)
              (fun e he hk => hlv e (List.mem_cons_of_mem _ he) hk)
              (by simpa only [List.map_cons] using hJ)
            refine ⟨fun _ => hps, fun hm => ?_⟩
            rcases List.mem_cons.mp hm with h | h
            · have hh : "limit" = "page" := congrArg Prod.fst h
              exact absurd hh (by decide)
            · exact ihres.2 h
      · by_cases hlk : k = "limit"
        · subst hlk
          have hv : ls1 = v := (hlv ("limit", v) (List.mem_cons_self _ _) rfl).symm
          subst hv
          have hrw : rwPL ps2 ls2 ("limit", ls1) = ("limit", ls2) := by
            simp [rwPL]
          cases rest with
          | nil =>
              simp only [List.map_cons, List.map_nil, hrw, joinBar] at heq
              have hls : ls1 = ls2 := entStr_val_inj "limit" ls1 ls2 heq
              refine ⟨fun hm => ?_, fun _ => hls⟩
              have h := List.mem_singleton.mp hm
              have hh : "page" = "limit" := congrArg Prod.fst h
              exact absurd hh (by decide)
          | cons r rs =>
              simp only [List.map_cons, hrw, joinBar] at heq
              obtain ⟨hls, hJ⟩ := barSplit "limit" ls1 ls2 _ _ hd2 hd4 heq
              have ihres := ih
                (fun e he hk => hpv e (List.mem_cons_of_mem _ he) hk)
                (fun e he hk => hlv e (List.mem_cons_of_mem _ he) hk)
                (by simpa only [List.map_cons] using hJ)
              refine ⟨fun hm => ?_, fun _ => hls⟩
              rcases List.mem_cons.mp hm with h | h
              · have hh : "page" = "limit" := congrArg Prod.fst h
                exact absurd hh (by decide)
              · exact ihres.1 h
        · have hrw : rwPL ps2 ls2 (k, v) = (k, v) := by
            simp [rwPL, hpk, hlk]
          cases rest with
          | nil =>
              refine ⟨fun hm => ?_, fun hm => ?_⟩
              · exact absurd (congrArg Prod.fst (List.mem_singleton.mp hm)).symm hpk
              · exact absurd (congrArg Prod.fst (List.mem_singleton.mp hm)).symm hlk
          | cons r rs =>
              simp only [List.map_cons, hrw, joinBar] at heq
              have hJ := barTail _ _ _ heq
              have ihres := ih
                (fun e he hk => hpv e (List.mem_cons_of_mem _ he) hk)
                (fun e he hk => hlv e (List.mem_cons_of_mem _ he) hk)
                (by simpa only [List.map_cons] using hJ)
              refine ⟨fun hm => ?_, fun hm => ?_⟩
              · rcases List.mem_cons.mp hm with h | h
                · exact absurd (congrArg Prod.fst h).symm hpk
                · exact ihres.1 h
              · rcases List.mem_cons.mp hm with h | h
                · exact absurd (congrArg Prod.fst h).symm hlk
                · exact ihres.2 h

/-- C10.  The controller passes `page` and `limit` into the filter map when
computing the search cache key, so two search requests that differ in page or
in limit (all else equal) produce distinct cache keys — a cached page can
never be served in answer to a request for a different page or limit. -/
theorem pageLimit_distinct_keys (p : SearchParams) (p2 l2 : Nat)
    (hne : p.page ≠ p2 ∨ p.limit ≠ l2) :
    getSearchKeyCtrl p ≠ getSearchKeyCtrl { p with page := p2, limit := l2 } := by
  intro heq
  simp only [getSearchKeyCtrl, getSearchKey] at heq
  rw [cleanCtrl_rw p p2 l2, insertionSort_map_rw] at heq
  have hpageMem : ("page", natStr p.page)
      ∈ List.insertionSort keyLe (cleanFilters (ctrlFilters p)) := by
    apply ((List.perm_insertionSort keyLe _).mem_iff).mpr
    rw [cleanCtrl_split]
    exact List.mem_append_right _ (by simp)
  have hlimitMem : ("limit", natStr p.limit)
      ∈ List.insertionSort keyLe (cleanFilters (ctrlFilters p)) := by
    apply ((List.perm_insertionSort keyLe _).mem_iff).mpr
    rw [cleanCtrl_split]
    exact List.mem_append_right _ (by simp)
  have hpageVal : ∀ e ∈ List.insertionSort keyLe (cleanFilters (ctrlFilters p)),
      e.1 = "page" → e.2 = natStr p.page := by
    intro e he hk
    have he' := ((List.perm_insertionSort keyLe _).mem_iff).mp he
    rw [cleanCtrl_split] at he'
    rcases List.mem_append.mp he' with h | h
    · have hf := mem_cleanFilters_fst h
      simp only [List.map_cons, List.map_nil, List.mem_cons,
        List.not_mem_nil, or_false] at hf
      rcases hf with h' | h' | h' <;> (rw [hk] at h'; exact absurd h' (by decide))
    · simp only [List.mem_cons, List.not_mem_nil, or_false] at h
      rcases h with h' | h'
      · rw [h']
      · rw [h'] at hk
        have hk' : "limit" = "page" := hk
        exact absurd hk' (by decide)
  have hlimitVal : ∀ e ∈ List.insertionSort keyLe (cleanFilters (ctrlFilters p)),
      e.1 = "limit" → e.2 = natStr p.limit := by
    intro e he hk
    have he' := ((List.perm_insertionSort keyLe _).mem_iff).mp he
    rw [cleanCtrl_split] at he'
    rcases List.mem_append.mp he' with h | h
    · have hf := mem_cleanFilters_fst h
      simp only [List.map_cons, List.map_nil, List.mem_cons,
        List.not_mem_nil, or_false] at hf
      rcases hf with h' | h' | h' <;> (rw [hk] at h'; exact absurd h' (by decide))
    · simp only [List.mem_cons, List.not_mem_nil, or_false] at h
      rcases h with h' | h'
      · rw [h'] at hk
        have hk' : "page" = "limit" := hk
        exact absurd hk' (by decide)
      · rw [h']
  have hne1 : joinBar ((List.insertionSort keyLe
      (cleanFilters (ctrlFilters p))).map entStr) ≠ "" := by
    intro h0
    have h2 := joinBar_len_ge (entStr ("page", natStr p.page)) _
      (List.mem_map_of_mem entStr hpageMem)
    rw [h0] at h2
    have hlen : 0 < (entStr ("page", natStr p.page)).length := by
      show 0 < (entStr ("page", natStr p.page)).data.length
      rw [entStr_data]
      simp
    have hz : ("" : String).length = 0 := rfl
    omega
  have hne2 : joinBar (((List.insertionSort keyLe
      (cleanFilters (ctrlFilters p))).map
        (rwPL (natStr p2) (natStr l2))).map entStr) ≠ "" := by
    intro h0
    have hrw : rwPL (natStr p2) (natStr l2) ("page", natStr p.page)
        = ("page", natStr p2) := by simp [rwPL]
    have hm2 := List.mem_map_of_mem entStr
      (List.mem_map_of_mem (rwPL (natStr p2) (natStr l2)) hpageMem)
    rw [hrw] at hm2
    have h2 := joinBar_len_ge _ _ hm2
    rw [h0] at h2
    have hlen : 0 < (entStr ("page", natStr p2)).length := by
      show 0 < (entStr ("page", natStr p2)).data.length
      rw [entStr_data]
      simp
    have hz : ("" : String).length = 0 := rfl
    omega
  rw [if_neg hne1, if_neg hne2] at heq
  have hd := congrArg String.data heq
  simp only [strData_append] at hd
  rw [List.append_assoc, List.append_assoc] at hd
  have hda := List.append_cancel_left hd
  have hdb := List.append_cancel_left hda
  have hdc := List.append_cancel_left hdb
  have hJ := strDataInj hdc
  have hres := joinInj (natStr p.page) (natStr p.limit) (natStr p2) (natStr l2)
    (natStr_digits _) (natStr_digits _) (natStr_digits _) (natStr_digits _)
    (List.insertionSort keyLe (cleanFilters (ctrlFilters p)))
    hpageVal hlimitVal hJ
  rcases hne with h | h
  · exact h (natStr_inj (hres.1 hpageMem))
  · exact h (natStr_inj (hres.2 hlimitMem))

def c10p : SearchParams := ⟨"gardener", none, some "quito", none, 2, 20⟩

/-- Witness for C10: page 2 vs page 3 at limit 20 give distinct keys. -/
theorem pageLimit_distinct_keys_witness :
    ((c10p.page ≠ 3 ∨ c10p.limit ≠ 20) ∧
      getSearchKeyCtrl c10p ≠ getSearchKeyCtrl { c10p with page := 3, limit := 20 }) :=
  ⟨Or.inl (by decide),
    pageLimit_distinct_keys c10p 3 20 (Or.inl (by decide))⟩

end BackDoUp
